import Mathlib

/-!
MatrixRain (`PixelFlow`) particle engine.

A shallow embedding of `src/MatrixRain/matrixrain.cpp`.

* `Drop::step` is embedded in two readings. In the exact reading (`Drop.step`) the
  `float` values are exact rationals (no rounding, no NaN, no infinities) and the
  constants are the decimal numbers of the source text. In the binary32 reading
  (`Drop.stepF32`) every `float` sum is rounded to IEEE binary32, the constants of
  lines 125-126 are the `float` values the code stores, and the `int` bounds are
  converted to `float` where the code compares them with, or assigns them to, a
  `float`. Both readings are about finite values: the rounding has no overflow to
  infinity. The engine loop is stated over the exact reading.
* `rand()` is a stream of naturals that is threaded through every function that
  draws from it, in the order in which the source calls `rand()`.
* The display interface inherited from `CubeApplication` (`fade`, `setPixel3D`,
  `render`) belongs to the matrixserver library; the engine state records the
  calls made on it, in order, in `Engine.frame`.
* `VIRTUALCUBEMAXINDEX`, `VIRTUALCUBECENTER`, the trigonometric functions and the
  colour scaling operator come from library headers; they are the fields of
  `Host`. `VIRTUALCUBECENTER` is only ever converted to `float` by the code, so
  it is a rational here.
-/

namespace PixelFlow

/-- Three `float` components; the source indices `[0]`, `[1]`, `[2]` are `x`, `y`, `z`. -/
structure Vector3f where
  x : ℚ
  y : ℚ
  z : ℚ
deriving DecidableEq

/-- Three `int` components; the source indices `[0]`, `[1]`, `[2]` are `x`, `y`, `z`. -/
structure Vector3i where
  x : ℤ
  y : ℤ
  z : ℤ
deriving DecidableEq

/-- An 8-bit-per-channel colour. -/
structure Color where
  r : ℕ
  g : ℕ
  b : ℕ
deriving DecidableEq

/-- The state of the C library generator, as the stream of values `rand()` will return. -/
abbrev Rng := ℕ → ℕ

/-- One call of `rand()`: the value returned and the generator afterwards. -/
def Rng.draw (g : Rng) : ℕ × Rng := (g 0, fun n => g (n + 1))

/-- Component-wise `+=` of `Vector3f`. -/
def Vector3f.add (a b : Vector3f) : Vector3f := ⟨a.x + b.x, a.y + b.y, a.z + b.z⟩

/-- The C function `round`: nearest integer, halfway cases away from zero. -/
def cRound (v : ℚ) : ℤ := if 0 ≤ v then ⌊v + 1 / 2⌋ else -⌊-v + 1 / 2⌋

/-- Members of `PixelFlow::Particle`. -/
structure Particle where
  position_ : Vector3f
  velocity_ : Vector3f
  acceleration_ : Vector3f
  color_ : Color
deriving DecidableEq

/-- Members of `PixelFlow::Drop`, which derives from `Particle`. -/
structure Drop extends Particle where
  maxPos_ : Vector3i
  vxOld_ : ℚ
  vyOld_ : ℚ
  rdyDelete_ : Bool
deriving DecidableEq

/-- `Particle::accelerate` (line 205): `velocity_ += acceleration_`. -/
def Particle.accelerate (p : Particle) : Particle :=
  { p with velocity_ := p.velocity_.add p.acceleration_ }

/-- `Particle::move` (line 201): `position_ += velocity_`. -/
def Particle.move (p : Particle) : Particle :=
  { p with position_ := p.position_.add p.velocity_ }

/-- `Particle::step` (line 196): `accelerate(); move();`. -/
def Particle.step (p : Particle) : Particle := p.accelerate.move

/-- `Particle::iPosition` (line 221). -/
def Particle.iPosition (p : Particle) : Vector3i :=
  ⟨cRound p.position_.x, cRound p.position_.y, cRound p.position_.z⟩

/-- The constructor `Drop::Drop` (line 113). -/
def Drop.new (maxPos : Vector3i) (pos vel accel : Vector3f) (col : Color) : Drop :=
  { position_ := pos, velocity_ := vel, acceleration_ := accel, color_ := col,
    maxPos_ := maxPos, vxOld_ := 0, vyOld_ := 0, rdyDelete_ := false }

/-- `Drop::getRdyDelete` (line 185). -/
def Drop.getRdyDelete (d : Drop) : Bool := d.rdyDelete_

/-- The condition of line 124: x or y lies outside the horizontal span. -/
def Drop.outside (d : Drop) : Prop :=
  d.position_.x < 0 ∨ d.position_.y < 0 ∨
    d.position_.x > d.maxPos_.x ∨ d.position_.y > d.maxPos_.y

instance (d : Drop) : Decidable d.outside := by
  unfold Drop.outside; infer_instance

/-- Lines 124-135 of `Drop::step`: the rim rule, the only place that calls `rand()`.
Exact reading: the two constants are the decimal numbers of the source text;
`Drop.rimRuleF32` has them as the code stores them in a `float`. -/
def Drop.rimRule (d : Drop) (g : Rng) : Drop × Rng :=
  if d.outside then
    let d1 : Drop := { d with velocity_ := { d.velocity_ with z := 0.2 } }
    let d2 : Drop :=
      { d1 with acceleration_ :=
          { d1.acceleration_ with z := 0.001 + ((g.draw.1 % 10 : ℕ) : ℚ) / 200 } }
    let d3 : Drop := { d2 with acceleration_ := { d2.acceleration_ with y := 0 } }
    let d4 : Drop := { d3 with acceleration_ := { d3.acceleration_ with x := 0 } }
    let d5 : Drop :=
      if d4.vxOld_ = 0 ∧ d4.vyOld_ = 0 then
        { d4 with vxOld_ := d4.velocity_.x, vyOld_ := d4.velocity_.y }
      else d4
    let d6 : Drop := { d5 with velocity_ := { d5.velocity_ with x := 0 } }
    let d7 : Drop := { d6 with velocity_ := { d6.velocity_ with y := 0 } }
    (d7, g.draw.2)
  else (d, g)

/-- Lines 137-155 of `Drop::step`: the four side clamps, each resetting the depth. -/
def Drop.clampSides (d : Drop) : Drop :=
  let d1 : Drop :=
    if d.position_.x < 0 then { d with position_ := { d.position_ with x := 0, z := 0 } } else d
  let d2 : Drop :=
    if d1.position_.y < 0 then { d1 with position_ := { d1.position_ with y := 0, z := 0 } }
    else d1
  let d3 : Drop :=
    if d2.position_.x > d2.maxPos_.x then
      { d2 with position_ := { d2.position_ with x := d2.maxPos_.x, z := 0 } }
    else d2
  let d4 : Drop :=
    if d3.position_.y > d3.maxPos_.y then
      { d3 with position_ := { d3.position_ with y := d3.maxPos_.y, z := 0 } }
    else d3
  d4

/-- Lines 157-170 of `Drop::step`: reflection at depth 0 and reversal at the far face. -/
def Drop.depthRule (d : Drop) : Drop :=
  let d1 : Drop :=
    if d.position_.z < 0 then
      { d with position_ := { d.position_ with z := 0 },
               velocity_ := { d.velocity_ with z := d.velocity_.z * -1 } }
    else d
  let d2 : Drop :=
    if d1.position_.z > d1.maxPos_.z then
      { d1 with position_ := { d1.position_ with z := d1.maxPos_.z },
                velocity_ := ⟨d1.vxOld_ * -1, d1.vyOld_ * -1, 0⟩,
                acceleration_ := ⟨0, 0, 0⟩ }
    else d1
  d2

/-- Lines 171-178 of `Drop::step`: the stop rule on both horizontal axes;
`center` is `VIRTUALCUBECENTER`. -/
def Drop.centerRule (center : ℚ) (d : Drop) : Drop :=
  let d1 : Drop :=
    if ((d.velocity_.x > 0 ∧ d.position_.x > center) ∨
        (d.velocity_.x < 0 ∧ d.position_.x < center)) ∧ d.position_.z = d.maxPos_.z then
      { d with velocity_ := { d.velocity_ with x := 0 }, vxOld_ := 0 }
    else d
  let d2 : Drop :=
    if ((d1.velocity_.y > 0 ∧ d1.position_.y > center) ∨
        (d1.velocity_.y < 0 ∧ d1.position_.y < center)) ∧ d1.position_.z = d1.maxPos_.z then
      { d1 with velocity_ := { d1.velocity_ with y := 0 }, vyOld_ := 0 }
    else d1
  d2

/-- Lines 179-181 of `Drop::step`: the settle test. -/
def Drop.settleRule (d : Drop) : Drop :=
  if d.velocity_.x = 0 ∧ d.velocity_.y = 0 ∧ d.position_.z = d.maxPos_.z then
    { d with rdyDelete_ := true }
  else d

/-- The drop after `Particle::step()` (line 122), the first statement of `Drop::step`.
Exact reading: the sums are not rounded; `Drop.integrateF32` rounds them to binary32. -/
def Drop.integrate (d : Drop) : Drop := { d with toParticle := d.toParticle.step }

/-- `Drop::step` (lines 121-183); `center` is `VIRTUALCUBECENTER`. -/
def Drop.step (center : ℚ) (d : Drop) (g : Rng) : Drop × Rng :=
  let r := d.integrate.rimRule g
  (((r.1.clampSides).depthRule.centerRule center).settleRule, r.2)

/-- Repeated `Drop::step`: `n` successive calls on the same drop. -/
def Drop.stepN (center : ℚ) : ℕ → Drop → Rng → Drop × Rng
  | 0, d, g => (d, g)
  | n + 1, d, g => let r := Drop.stepN center n d g; r.1.step center r.2

/-- A call made on the display interface of `CubeApplication`. -/
inductive DisplayCall where
  | fade (factor : ℚ)
  | setPixel3D (pos : Vector3i) (col : Color)
  | render
deriving DecidableEq

/-- What `getButtonPress` answers for one joystick during one call of `loop`, for the
four buttons the source asks about. `clearAllButtonPresses` (line 45) makes the
next call see fresh answers, so every call of `loop` receives its own list. -/
structure Joystick where
  press0 : Bool
  press3 : Bool
  press6 : Bool
  press7 : Bool
deriving DecidableEq

/-- The constants and library functions the source takes from library headers:
`VIRTUALCUBEMAXINDEX`, `VIRTUALCUBECENTER`, the value of
`cos(a*PI/180)` and `sin(a*PI/180)` for a whole number of degrees `a`, and
`Color::operator*=`. -/
structure Host where
  maxIndex : ℤ
  center : ℚ
  cosDeg : ℕ → ℚ
  sinDeg : ℕ → ℚ
  scale : Color → ℚ → Color

/-- The state `PixelFlow::loop` keeps between calls: its function-local statics
(lines 20-24) once they are initialised, the member `fade_factor`, the calls made so far on the display
interface, and the generator behind `rand()`. The two counters are `int` in the
source; they only count up from 0 and are read modulo 1 and modulo 2. -/
structure Engine where
  rdrops : List Drop
  counter : ℕ
  counterColChange : ℕ
  col1 : Color
  isPaused : Bool
  fade_factor : ℚ
  frame : List DisplayCall
  rng : Rng

/-- Lines 28-43 of `loop`: the body of the joystick loop for one joystick. -/
def handleButtons (s : Engine) (j : Joystick) : Engine :=
  let s1 : Engine :=
    if j.press0 then { s with counterColChange := s.counterColChange + 1 } else s
  let s2 : Engine := if j.press3 then { s1 with isPaused := !s1.isPaused } else s1
  let s3 : Engine :=
    if j.press6 then
      (if s2.fade_factor ≥ 0.05 then { s2 with fade_factor := s2.fade_factor - 0.2 } else s2)
    else s2
  let s4 : Engine :=
    if j.press7 then
      (if s3.fade_factor ≤ 1.0 then { s3 with fade_factor := s3.fade_factor + 0.2 } else s3)
    else s3
  s4

/-- Lines 54-59 of `loop`: `n` rounds of the spawn loop, appending to `ds`. -/
def spawn (h : Host) (col : Color) : ℕ → List Drop → Rng → List Drop × Rng
  | 0, ds, g => (ds, g)
  | n + 1, ds, g =>
    let randAngle : ℕ := g.draw.1 % 360
    let vx : ℚ := 0.5 * h.cosDeg randAngle
    let vy : ℚ := 0.5 * h.sinDeg randAngle
    spawn h col n
      (ds ++ [Drop.new ⟨h.maxIndex, h.maxIndex, h.maxIndex⟩ ⟨h.center, h.center, 0⟩
        ⟨vx, vy, 0⟩ ⟨0, 0, 0⟩ col])
      g.draw.2

/-- Lines 61-93 of `loop`: the colour switch on `counterColChange % 2`. -/
def nextColor (h : Host) (counterColChange : ℕ) (col : Color) (g : Rng) : Color × Rng :=
  match counterColChange % 2 with
  | 0 =>
    let c : Color := { r := 0, g := 255, b := 150 }
    (h.scale c (((g.draw.1 % 100 : ℕ) : ℚ) / 100), g.draw.2)
  | 1 =>
    let c1 : Color := { col with g := 0 }
    let c2 : Color := { c1 with b := 255 - g.draw.1 % 100 }
    let c3 : Color := { c2 with r := 255 - g.draw.2.draw.1 % 200 }
    (c3, g.draw.2.draw.2)
  | 2 =>
    let c1 : Color := { col with b := 0 }
    let c2 : Color := { c1 with r := 255 - g.draw.1 % 100 }
    let c3 : Color := { c2 with g := 255 - g.draw.2.draw.1 % 200 }
    (c3, g.draw.2.draw.2)
  | 3 =>
    let c1 : Color := { col with r := 0, g := 0 }
    ({ c1 with b := 255 - g.draw.1 % 200 }, g.draw.2)
  | 4 =>
    let c1 : Color := { col with g := 0, b := 0 }
    ({ c1 with r := 255 - g.draw.1 % 200 }, g.draw.2)
  | 5 =>
    let c1 : Color := { col with b := 0, r := 0 }
    ({ c1 with g := 255 - g.draw.1 % 200 }, g.draw.2)
  | _ => (col, g)

/-- Lines 95-101 of `loop`: step every drop in order and write its pixel; the
result is the stepped drops, the `setPixel3D` calls made, and the generator. -/
def stepAndDraw (center : ℚ) (counter : ℕ) : List Drop → Rng → List Drop × List DisplayCall × Rng
  | [], g => ([], [], g)
  | r :: rs, g =>
    let r1 : Drop × Rng := if counter % 1 = 0 then r.step center g else (r, g)
    let rest := stepAndDraw center counter rs r1.2
    (r1.1 :: rest.1,
      DisplayCall.setPixel3D r1.1.toParticle.iPosition r1.1.color_ :: rest.2.1, rest.2.2)

/-- The state after the joystick loop of lines 27-46. -/
def readJoysticks (joysticks : List Joystick) (s : Engine) : Engine :=
  joysticks.foldl handleButtons s

/-- `PixelFlow::loop` (lines 19-110): the state afterwards and the value returned. -/
def loop (h : Host) (joysticks : List Joystick) (s : Engine) : Engine × Bool :=
  let s1 := readJoysticks joysticks s
  if s1.isPaused then (s1, true)
  else
    let faded : List DisplayCall := s1.frame ++ [DisplayCall.fade s1.fade_factor]
    let sp := spawn h s1.col1 4 s1.rdrops s1.rng
    let nc := nextColor h s1.counterColChange s1.col1 sp.2
    let st := stepAndDraw h.center s1.counter sp.1 nc.2
    let kept : List Drop := st.1.filter (fun r => !r.getRdyDelete)
    ({ s1 with
        rdrops := kept
        counter := s1.counter + 1
        col1 := nc.1
        frame := faded ++ st.2.1 ++ [DisplayCall.render]
        rng := st.2.2 }, true)

/-- Successive calls of `loop`, one per element of `calls`. -/
def run (h : Host) : List (List Joystick) → Engine → Engine
  | [], s => s
  | js :: rest, s => run h rest (loop h js s).1

/-- A host for concrete runs: the reference cube constants, trigonometric functions
that are exact on the multiples of 90 degrees (and 0 elsewhere), and a colour scaling
that rounds each channel down. -/
def gridHost : Host where
  maxIndex := 65
  center := 32
  cosDeg := fun a => if a = 0 then 1 else if a = 180 then -1 else 0
  sinDeg := fun a => if a = 90 then 1 else if a = 270 then -1 else 0
  scale := fun c f => ⟨⌊(c.r : ℚ) * f⌋₊, ⌊(c.g : ℚ) * f⌋₊, ⌊(c.b : ℚ) * f⌋₊⟩

/-- The engine in its first call, right after the statics of lines 20-24 are
initialised, with the default fade factor 0.9 of `src/MatrixRain/main.cpp` and a
generator that always returns 0 (so that line 23 gives `col1` = (0, 255, 255)). -/
def freshEngine : Engine where
  rdrops := []
  counter := 0
  counterColChange := 0
  col1 := ⟨0, 255, 255⟩
  isPaused := false
  fade_factor := 0.9
  frame := []
  rng := fun _ => 0

/-- A joystick that reports a press of button 7 only. -/
def pressSeven : Joystick := ⟨false, false, false, true⟩

/-- A joystick that reports a press of button 6 only. -/
def pressSix : Joystick := ⟨false, false, true, false⟩

/-- A joystick that reports a press of button 3 only. -/
def pressThree : Joystick := ⟨false, true, false, false⟩

/-- A drop for concrete runs: a cube of extent 7 and a velocity that overshoots the
bounds on all three axes by several cube widths in one step. -/
def wildDrop : Drop :=
  Drop.new ⟨7, 7, 7⟩ ⟨3, 3, 5⟩ ⟨100, -250, 40⟩ ⟨1, 2, 3⟩ ⟨0, 255, 150⟩

/-! ## The binary32 reading of `Drop::step` -/

/-- The integer nearest to `q`, halfway cases to the even neighbour. -/
def roundHalfEven (q : ℚ) : ℤ :=
  if q - ⌊q⌋ < 1 / 2 then ⌊q⌋
  else if 1 / 2 < q - ⌊q⌋ then ⌊q⌋ + 1
  else if ⌊q⌋ % 2 = 0 then ⌊q⌋ else ⌊q⌋ + 1

/-- Halving `n` until it is below 2, at most `fuel` times: the number of halvings. -/
def bitLength : ℕ → ℕ → ℕ
  | 0, _ => 0
  | fuel + 1, n => if n < 2 then 0 else bitLength fuel (n / 2) + 1

/-- The binary exponent of a positive rational: the `e` with `2^e <= v < 2^(e+1)`. -/
def binaryExponent (v : ℚ) : ℤ :=
  if (2 : ℚ) ^ ((bitLength v.num.natAbs v.num.natAbs : ℤ) - (bitLength v.den v.den : ℤ)) ≤ v then
    (bitLength v.num.natAbs v.num.natAbs : ℤ) - (bitLength v.den v.den : ℤ)
  else (bitLength v.num.natAbs v.num.natAbs : ℤ) - (bitLength v.den v.den : ℤ) - 1

/-- Rounding to the nearest binary floating-point number with `prec` significant bits
and least normal exponent `emin` (ties to even; no overflow to infinity). -/
def roundBinary (prec : ℕ) (emin : ℤ) (v : ℚ) : ℚ :=
  if v = 0 then 0
  else
    (roundHalfEven (v / (2 : ℚ) ^ (max (binaryExponent |v|) emin - ((prec : ℤ) - 1))) : ℚ) *
      (2 : ℚ) ^ (max (binaryExponent |v|) emin - ((prec : ℤ) - 1))

/-- Rounding to `float` (IEEE binary32). -/
def f32 (v : ℚ) : ℚ := roundBinary 24 (-126) v

/-- Rounding to `double` (IEEE binary64). -/
def f64 (v : ℚ) : ℚ := roundBinary 53 (-1022) v

/-- The spacing of the binary floating-point numbers with `prec` significant bits
and least normal exponent `emin` in the binade of `v`. -/
def spacing (prec : ℕ) (emin : ℤ) (v : ℚ) : ℚ :=
  (2 : ℚ) ^ (max (binaryExponent |v|) emin - ((prec : ℤ) - 1))

/-- The `float` an `int` is converted to where the source compares or assigns the two. -/
def toFloat (n : ℤ) : ℚ := f32 (n : ℚ)

/-- `Particle::step()` on a drop with every `float` sum rounded to binary32. -/
def Drop.integrateF32 (d : Drop) : Drop :=
  let v : Vector3f :=
    ⟨f32 (d.velocity_.x + d.acceleration_.x), f32 (d.velocity_.y + d.acceleration_.y),
      f32 (d.velocity_.z + d.acceleration_.z)⟩
  { d with
    velocity_ := v
    position_ := ⟨f32 (d.position_.x + v.x), f32 (d.position_.y + v.y), f32 (d.position_.z + v.z)⟩ }

/-- The condition of line 124 as the generated code evaluates it: the `int` bounds are
converted to `float` for the comparison. -/
def Drop.outsideF32 (d : Drop) : Prop :=
  d.position_.x < 0 ∨ d.position_.y < 0 ∨
    d.position_.x > toFloat d.maxPos_.x ∨ d.position_.y > toFloat d.maxPos_.y

instance (d : Drop) : Decidable d.outsideF32 := by
  unfold Drop.outsideF32; infer_instance

/-- Lines 124-135 with the two constants as the generated code stores them: the
`double` 0.2 converted to `float`, and the `double` sum of 0.001 and the `float`
quotient converted to `float`. -/
def Drop.rimRuleF32 (d : Drop) (g : Rng) : Drop × Rng :=
  if d.outsideF32 then
    let d1 : Drop := { d with velocity_ := { d.velocity_ with z := f32 (f64 0.2) } }
    let d2 : Drop :=
      { d1 with acceleration_ :=
          { d1.acceleration_ with
            z := f32 (f64 (f64 0.001 + f32 (((g.draw.1 % 10 : ℕ) : ℚ) / 200))) } }
    let d3 : Drop := { d2 with acceleration_ := { d2.acceleration_ with y := 0 } }
    let d4 : Drop := { d3 with acceleration_ := { d3.acceleration_ with x := 0 } }
    let d5 : Drop :=
      if d4.vxOld_ = 0 ∧ d4.vyOld_ = 0 then
        { d4 with vxOld_ := d4.velocity_.x, vyOld_ := d4.velocity_.y }
      else d4
    let d6 : Drop := { d5 with velocity_ := { d5.velocity_ with x := 0 } }
    let d7 : Drop := { d6 with velocity_ := { d6.velocity_ with y := 0 } }
    (d7, g.draw.2)
  else (d, g)

/-- Lines 137-155 with the `int` bounds converted to `float`. -/
def Drop.clampSidesF32 (d : Drop) : Drop :=
  let d1 : Drop :=
    if d.position_.x < 0 then { d with position_ := { d.position_ with x := 0, z := 0 } } else d
  let d2 : Drop :=
    if d1.position_.y < 0 then { d1 with position_ := { d1.position_ with y := 0, z := 0 } }
    else d1
  let d3 : Drop :=
    if d2.position_.x > toFloat d2.maxPos_.x then
      { d2 with position_ := { d2.position_ with x := toFloat d2.maxPos_.x, z := 0 } }
    else d2
  let d4 : Drop :=
    if d3.position_.y > toFloat d3.maxPos_.y then
      { d3 with position_ := { d3.position_ with y := toFloat d3.maxPos_.y, z := 0 } }
    else d3
  d4

/-- Lines 157-170 with the `int` depth bound converted to `float`. -/
def Drop.depthRuleF32 (d : Drop) : Drop :=
  let d1 : Drop :=
    if d.position_.z < 0 then
      { d with position_ := { d.position_ with z := 0 },
               velocity_ := { d.velocity_ with z := d.velocity_.z * -1 } }
    else d
  let d2 : Drop :=
    if d1.position_.z > toFloat d1.maxPos_.z then
      { d1 with position_ := { d1.position_ with z := toFloat d1.maxPos_.z },
                velocity_ := ⟨d1.vxOld_ * -1, d1.vyOld_ * -1, 0⟩,
                acceleration_ := ⟨0, 0, 0⟩ }
    else d1
  d2

/-- Lines 171-178 with the `int` depth bound converted to `float`; `center` is the
value of `VIRTUALCUBECENTER` in the comparison. -/
def Drop.centerRuleF32 (center : ℚ) (d : Drop) : Drop :=
  let d1 : Drop :=
    if ((d.velocity_.x > 0 ∧ d.position_.x > center) ∨
        (d.velocity_.x < 0 ∧ d.position_.x < center)) ∧
        d.position_.z = toFloat d.maxPos_.z then
      { d with velocity_ := { d.velocity_ with x := 0 }, vxOld_ := 0 }
    else d
  let d2 : Drop :=
    if ((d1.velocity_.y > 0 ∧ d1.position_.y > center) ∨
        (d1.velocity_.y < 0 ∧ d1.position_.y < center)) ∧
        d1.position_.z = toFloat d1.maxPos_.z then
      { d1 with velocity_ := { d1.velocity_ with y := 0 }, vyOld_ := 0 }
    else d1
  d2

/-- Lines 179-181 with the `int` depth bound converted to `float`. -/
def Drop.settleRuleF32 (d : Drop) : Drop :=
  if d.velocity_.x = 0 ∧ d.velocity_.y = 0 ∧ d.position_.z = toFloat d.maxPos_.z then
    { d with rdyDelete_ := true }
  else d

/-- `Drop::step` with binary32 arithmetic. -/
def Drop.stepF32 (center : ℚ) (d : Drop) (g : Rng) : Drop × Rng :=
  let r := d.integrateF32.rimRuleF32 g
  (((r.1.clampSidesF32).depthRuleF32.centerRuleF32 center).settleRuleF32, r.2)

/-- Repeated `Drop::step` with binary32 arithmetic. -/
def Drop.stepNF32 (center : ℚ) : ℕ → Drop → Rng → Drop × Rng
  | 0, d, g => (d, g)
  | n + 1, d, g => let r := Drop.stepNF32 center n d g; r.1.stepF32 center r.2

/-- The drop the spawn code creates for `rand() % 360 = 90` in a cube of extent 7
with center 3: `0.5 * cos(90 * 3.14159265 / 180)` is about 8.97e-10, stored in a
`float` as 16166993 / 2^54, and `0.5 * sin(90 * 3.14159265 / 180)` is stored as 0.5. -/
def quarterTurn : Drop :=
  Drop.new ⟨7, 7, 7⟩ ⟨3, 3, 0⟩ ⟨16166993 / 18014398509481984, 1 / 2, 0⟩ ⟨0, 0, 0⟩ ⟨0, 255, 150⟩

/-- The setter `Particle::position(Vector3f)` (line 233). -/
def Particle.position (p : Particle) (pos : Vector3f) : Particle := { p with position_ := pos }

/-- The setter `Particle::velocity(Vector3f)` (line 236). -/
def Particle.velocity (p : Particle) (vel : Vector3f) : Particle := { p with velocity_ := vel }

/-- The setter `Particle::acceleration(Vector3f)` (line 239). -/
def Particle.acceleration (p : Particle) (accel : Vector3f) : Particle :=
  { p with acceleration_ := accel }

/-- What a test harness can do to a drop between two calls of `Drop::step`: call the
three public setters of `Particle` (lines 233-241). The cache, the bounds and the
settled flag have no setter. -/
def Drop.force (d : Drop) (pos vel accel : Vector3f) : Drop :=
  { d with toParticle := ((d.toParticle.position pos).velocity vel).acceleration accel }

/-- A drop launched from the centre that has not left the horizontal span yet. -/
def Drop.FallingF32 (center : ℚ) (vx vy : ℚ) (d : Drop) : Prop :=
  d.velocity_ = ⟨vx, vy, 0⟩ ∧ d.acceleration_ = ⟨0, 0, 0⟩ ∧ d.vxOld_ = 0 ∧ d.vyOld_ = 0 ∧
    d.position_.z = 0 ∧
    (0 ≤ vx → center ≤ d.position_.x) ∧ (vx ≤ 0 → d.position_.x ≤ center) ∧
    (0 ≤ vy → center ≤ d.position_.y) ∧ (vy ≤ 0 → d.position_.y ≤ center)

/-- A drop launched from the centre that has hit the rim and glides down, short of
the far face. -/
def Drop.SlidingF32 (center : ℚ) (vx vy : ℚ) (d : Drop) : Prop :=
  d.velocity_.x = 0 ∧ d.velocity_.y = 0 ∧ 0 ≤ d.velocity_.z ∧
    d.acceleration_.x = 0 ∧ d.acceleration_.y = 0 ∧ 0 ≤ d.acceleration_.z ∧
    d.vxOld_ = vx ∧ d.vyOld_ = vy ∧
    0 ≤ d.position_.z ∧ d.position_.z < toFloat d.maxPos_.z ∧
    ¬ d.outsideF32 ∧ f32 d.position_.x = d.position_.x ∧ f32 d.position_.y = d.position_.y ∧
    (0 ≤ vx → center ≤ d.position_.x) ∧ (vx ≤ 0 → d.position_.x ≤ center) ∧
    (0 ≤ vy → center ≤ d.position_.y) ∧ (vy ≤ 0 → d.position_.y ≤ center)

/-- A drop for concrete runs: the drop launched with velocity (0.5, 0, 0) from the
centre 3 of a cube of extent 7, as it is after eight steps, at the rim and about to
cross it. -/
def rimDrop : Drop := Drop.new ⟨7, 7, 7⟩ ⟨7, 3, 0⟩ ⟨0.5, 0, 0⟩ ⟨0, 0, 0⟩ ⟨0, 255, 150⟩

/-- A drop for concrete runs: at rest in the centre 3 of a cube of extent 7. -/
def idleDrop : Drop := Drop.new ⟨7, 7, 7⟩ ⟨3, 3, 0⟩ ⟨0, 0, 0⟩ ⟨0, 0, 0⟩ ⟨0, 255, 150⟩

/-- A drop for concrete runs: a cube of extent 7 on x and y with the depth bound -1,
launched from (3, 3, 0) with velocity (10, 0, 0). -/
def shallowDrop : Drop := Drop.new ⟨7, 7, -1⟩ ⟨3, 3, 0⟩ ⟨10, 0, 0⟩ ⟨0, 0, 0⟩ ⟨0, 255, 150⟩

/-- A drop for concrete runs: `rimDrop` after its rim hit (one step, rim draw 4), then
put outside the span again through the setters. -/
def forcedDrop : Drop :=
  (rimDrop.stepF32 3 (fun _ => 4)).1.force ⟨8, 3, 2⟩ ⟨0, 0, 0.25⟩ ⟨0, 0, 0.0078125⟩

/-- A drop for concrete runs: a cube of extent 2^24 + 1, which is not a `float`, and a
drop one step short of passing the bound on x. -/
def hugeDrop : Drop :=
  Drop.new ⟨16777217, 16777217, 16777217⟩ ⟨16777216, 3, 0⟩ ⟨2, 0, 0⟩ ⟨0, 0, 0⟩ ⟨0, 255, 150⟩

/-- A drop for concrete runs: a cube of extent 826 with center 413 and the launch
velocity (0.5, 0, 0). -/
def landingDrop : Drop :=
  Drop.new ⟨826, 826, 826⟩ ⟨413, 413, 0⟩ ⟨0.5, 0, 0⟩ ⟨0, 0, 0⟩ ⟨0, 255, 150⟩

/-- The state of `landingDrop` after `k` steps inside the horizontal span. -/
def landingFall (k : ℕ) : Drop :=
  Drop.new ⟨826, 826, 826⟩ ⟨413 + (k : ℚ) / 2, 413, 0⟩ ⟨1 / 2, 0, 0⟩ ⟨0, 0, 0⟩ ⟨0, 255, 150⟩

/-- The state of `landingDrop` gliding down at the rim x = 826 with rim draw 6, at
depth `z` with vertical velocity `vz`. -/
def landingSlide (z vz : ℚ) : Drop :=
  { position_ := ⟨826, 413, z⟩, velocity_ := ⟨0, 0, vz⟩,
    acceleration_ := ⟨0, 0, 8321499 / 268435456⟩, color_ := ⟨0, 255, 150⟩,
    maxPos_ := ⟨826, 826, 826⟩, vxOld_ := 1 / 2, vyOld_ := 0, rdyDelete_ := false }

/-! ## Frame lemmas: what each part of `Drop::step` leaves alone -/

section Frame

variable (c : ℚ) (d : Drop) (g : Rng)

@[simp] theorem settleRule_toParticle : d.settleRule.toParticle = d.toParticle := by
  unfold Drop.settleRule; split_ifs <;> rfl

@[simp] theorem settleRule_maxPos : d.settleRule.maxPos_ = d.maxPos_ := by
  unfold Drop.settleRule; split_ifs <;> rfl

@[simp] theorem settleRule_vxOld : d.settleRule.vxOld_ = d.vxOld_ := by
  unfold Drop.settleRule; split_ifs <;> rfl

@[simp] theorem settleRule_vyOld : d.settleRule.vyOld_ = d.vyOld_ := by
  unfold Drop.settleRule; split_ifs <;> rfl

@[simp] theorem centerRule_position : (d.centerRule c).position_ = d.position_ := by
  unfold Drop.centerRule; dsimp only; split_ifs <;> rfl

@[simp] theorem centerRule_acceleration : (d.centerRule c).acceleration_ = d.acceleration_ := by
  unfold Drop.centerRule; dsimp only; split_ifs <;> rfl

@[simp] theorem centerRule_maxPos : (d.centerRule c).maxPos_ = d.maxPos_ := by
  unfold Drop.centerRule; dsimp only; split_ifs <;> rfl

@[simp] theorem centerRule_rdyDelete : (d.centerRule c).rdyDelete_ = d.rdyDelete_ := by
  unfold Drop.centerRule; dsimp only; split_ifs <;> rfl

@[simp] theorem centerRule_vz : (d.centerRule c).velocity_.z = d.velocity_.z := by
  unfold Drop.centerRule; dsimp only; split_ifs <;> rfl

@[simp] theorem depthRule_maxPos : d.depthRule.maxPos_ = d.maxPos_ := by
  unfold Drop.depthRule; dsimp only; split_ifs <;> rfl

@[simp] theorem depthRule_rdyDelete : d.depthRule.rdyDelete_ = d.rdyDelete_ := by
  unfold Drop.depthRule; dsimp only; split_ifs <;> rfl

@[simp] theorem depthRule_vxOld : d.depthRule.vxOld_ = d.vxOld_ := by
  unfold Drop.depthRule; dsimp only; split_ifs <;> rfl

@[simp] theorem depthRule_vyOld : d.depthRule.vyOld_ = d.vyOld_ := by
  unfold Drop.depthRule; dsimp only; split_ifs <;> rfl

@[simp] theorem depthRule_x : d.depthRule.position_.x = d.position_.x := by
  unfold Drop.depthRule; dsimp only; split_ifs <;> rfl

@[simp] theorem depthRule_y : d.depthRule.position_.y = d.position_.y := by
  unfold Drop.depthRule; dsimp only; split_ifs <;> rfl

@[simp] theorem clampSides_maxPos : d.clampSides.maxPos_ = d.maxPos_ := by
  unfold Drop.clampSides; dsimp only; split_ifs <;> rfl

@[simp] theorem clampSides_velocity : d.clampSides.velocity_ = d.velocity_ := by
  unfold Drop.clampSides; dsimp only; split_ifs <;> rfl

@[simp] theorem clampSides_acceleration : d.clampSides.acceleration_ = d.acceleration_ := by
  unfold Drop.clampSides; dsimp only; split_ifs <;> rfl

@[simp] theorem clampSides_vxOld : d.clampSides.vxOld_ = d.vxOld_ := by
  unfold Drop.clampSides; dsimp only; split_ifs <;> rfl

@[simp] theorem clampSides_vyOld : d.clampSides.vyOld_ = d.vyOld_ := by
  unfold Drop.clampSides; dsimp only; split_ifs <;> rfl

@[simp] theorem clampSides_rdyDelete : d.clampSides.rdyDelete_ = d.rdyDelete_ := by
  unfold Drop.clampSides; dsimp only; split_ifs <;> rfl

@[simp] theorem rimRule_maxPos : (d.rimRule g).1.maxPos_ = d.maxPos_ := by
  unfold Drop.rimRule; dsimp only; split_ifs <;> rfl

@[simp] theorem rimRule_position : (d.rimRule g).1.position_ = d.position_ := by
  unfold Drop.rimRule; dsimp only; split_ifs <;> rfl

@[simp] theorem rimRule_rdyDelete : (d.rimRule g).1.rdyDelete_ = d.rdyDelete_ := by
  unfold Drop.rimRule; dsimp only; split_ifs <;> rfl

@[simp] theorem integrate_maxPos : d.integrate.maxPos_ = d.maxPos_ := rfl

@[simp] theorem integrate_rdyDelete : d.integrate.rdyDelete_ = d.rdyDelete_ := rfl

@[simp] theorem integrate_vxOld : d.integrate.vxOld_ = d.vxOld_ := rfl

@[simp] theorem integrate_vyOld : d.integrate.vyOld_ = d.vyOld_ := rfl

@[simp] theorem step_maxPos : (d.step c g).1.maxPos_ = d.maxPos_ := by
  simp [Drop.step]

end Frame

/-! ## The side clamps and the depth rule -/

theorem clampSides_x (d : Drop) :
    d.clampSides.position_.x =
      if (if d.position_.x < 0 then 0 else d.position_.x) > (d.maxPos_.x : ℚ) then (d.maxPos_.x : ℚ)
      else (if d.position_.x < 0 then 0 else d.position_.x) := by
  unfold Drop.clampSides; dsimp only
  split_ifs <;> simp_all

theorem clampSides_y (d : Drop) :
    d.clampSides.position_.y =
      if (if d.position_.y < 0 then 0 else d.position_.y) > (d.maxPos_.y : ℚ) then (d.maxPos_.y : ℚ)
      else (if d.position_.y < 0 then 0 else d.position_.y) := by
  unfold Drop.clampSides; dsimp only
  split_ifs <;> simp_all

theorem clampSides_x_bounds (d : Drop) (hm : 0 ≤ d.maxPos_.x) :
    0 ≤ d.clampSides.position_.x ∧ d.clampSides.position_.x ≤ d.maxPos_.x := by
  have hm1 : (0 : ℚ) ≤ d.maxPos_.x := by exact_mod_cast hm
  rw [clampSides_x]
  split_ifs <;> constructor <;> linarith

theorem clampSides_y_bounds (d : Drop) (hm : 0 ≤ d.maxPos_.y) :
    0 ≤ d.clampSides.position_.y ∧ d.clampSides.position_.y ≤ d.maxPos_.y := by
  have hm1 : (0 : ℚ) ≤ d.maxPos_.y := by exact_mod_cast hm
  rw [clampSides_y]
  split_ifs <;> constructor <;> linarith

theorem depthRule_z_bounds (d : Drop) (hm : 0 ≤ d.maxPos_.z) :
    0 ≤ d.depthRule.position_.z ∧ d.depthRule.position_.z ≤ d.maxPos_.z := by
  have hm1 : (0 : ℚ) ≤ d.maxPos_.z := by exact_mod_cast hm
  unfold Drop.depthRule; dsimp only
  split_ifs <;> simp_all

/-! ## Single-step properties -/

/-- C1 (boundary invariant). With non-negative bounds on the three axes, after one
call of `Drop::step` every position component lies between 0 and its bound,
whatever position, velocity and acceleration the drop had before the call and
whatever `rand()` returns; the bounds themselves are not changed by the call. -/
theorem step_position_in_bounds (center : ℚ) (d : Drop) (g : Rng)
    (hx : 0 ≤ d.maxPos_.x) (hy : 0 ≤ d.maxPos_.y) (hz : 0 ≤ d.maxPos_.z) :
    (d.step center g).1.maxPos_ = d.maxPos_ ∧
    (0 ≤ (d.step center g).1.position_.x ∧ (d.step center g).1.position_.x ≤ d.maxPos_.x) ∧
    (0 ≤ (d.step center g).1.position_.y ∧ (d.step center g).1.position_.y ≤ d.maxPos_.y) ∧
    (0 ≤ (d.step center g).1.position_.z ∧ (d.step center g).1.position_.z ≤ d.maxPos_.z) := by
  refine ⟨step_maxPos center d g, ?_, ?_, ?_⟩
  · have h := clampSides_x_bounds (d.integrate.rimRule g).1 (by simpa using hx)
    simpa [Drop.step] using h
  · have h := clampSides_y_bounds (d.integrate.rimRule g).1 (by simpa using hy)
    simpa [Drop.step] using h
  · have h := depthRule_z_bounds (d.integrate.rimRule g).1.clampSides (by simpa using hz)
    simpa [Drop.step] using h

theorem step_position_in_bounds_witness :
    (0 ≤ wildDrop.maxPos_.x ∧ 0 ≤ wildDrop.maxPos_.y ∧ 0 ≤ wildDrop.maxPos_.z) ∧
    (wildDrop.step 3 (fun _ => 4)).1.maxPos_ = wildDrop.maxPos_ ∧
    (0 ≤ (wildDrop.step 3 (fun _ => 4)).1.position_.x ∧
      (wildDrop.step 3 (fun _ => 4)).1.position_.x ≤ wildDrop.maxPos_.x) ∧
    (0 ≤ (wildDrop.step 3 (fun _ => 4)).1.position_.y ∧
      (wildDrop.step 3 (fun _ => 4)).1.position_.y ≤ wildDrop.maxPos_.y) ∧
    (0 ≤ (wildDrop.step 3 (fun _ => 4)).1.position_.z ∧
      (wildDrop.step 3 (fun _ => 4)).1.position_.z ≤ wildDrop.maxPos_.z) :=
  ⟨by decide, step_position_in_bounds 3 wildDrop (fun _ => 4) (by decide) (by decide) (by decide)⟩

theorem settleRule_rdyDelete (d : Drop) :
    d.settleRule.rdyDelete_ =
      (d.rdyDelete_ || decide (d.position_.z = d.maxPos_.z ∧ d.velocity_.x = 0 ∧ d.velocity_.y = 0)) := by
  unfold Drop.settleRule
  split_ifs with h
  · obtain ⟨h1, h2, h3⟩ := h
    simp [h1, h2, h3]
  · have h4 : ¬ (d.position_.z = d.maxPos_.z ∧ d.velocity_.x = 0 ∧ d.velocity_.y = 0) := by
      rintro ⟨h1, h2, h3⟩
      exact h ⟨h2, h3, h1⟩
    simp [h4]

/-- C9 (settlement flag update). For every drop state, the settled flag after
`Drop::step` is the flag before the step OR-ed with the exact test "depth equals
`maxPos_.z` and both horizontal velocity components equal 0" on the state after the
step. So a set flag stays set, and a drop whose flag becomes set in a step is at
depth `maxPos_.z` with horizontal velocity (0, 0) after that step. -/
theorem step_rdyDelete (center : ℚ) (d : Drop) (g : Rng) :
    (d.step center g).1.rdyDelete_ =
      (d.rdyDelete_ ||
        decide ((d.step center g).1.position_.z = (d.step center g).1.maxPos_.z ∧
          (d.step center g).1.velocity_.x = 0 ∧ (d.step center g).1.velocity_.y = 0)) ∧
    (d.rdyDelete_ = true → (d.step center g).1.rdyDelete_ = true) ∧
    (d.rdyDelete_ = false → (d.step center g).1.rdyDelete_ = true →
      (d.step center g).1.position_.z = (d.step center g).1.maxPos_.z ∧
        (d.step center g).1.velocity_.x = 0 ∧ (d.step center g).1.velocity_.y = 0) := by
  have key : (d.step center g).1.rdyDelete_ =
      (d.rdyDelete_ ||
        decide ((d.step center g).1.position_.z = (d.step center g).1.maxPos_.z ∧
          (d.step center g).1.velocity_.x = 0 ∧ (d.step center g).1.velocity_.y = 0)) := by
    have h := settleRule_rdyDelete (((d.integrate.rimRule g).1.clampSides).depthRule.centerRule center)
    simpa [Drop.step] using h
  refine ⟨key, ?_, ?_⟩
  · intro h
    rw [key, h]
    rfl
  · intro h h1
    rw [key, h] at h1
    simpa using h1

/-! ## The joystick loop -/

theorem handleButtons_frozen (s : Engine) (j : Joystick) :
    (handleButtons s j).rdrops = s.rdrops ∧ (handleButtons s j).frame = s.frame ∧
      (handleButtons s j).rng = s.rng ∧ (handleButtons s j).counter = s.counter ∧
      (handleButtons s j).col1 = s.col1 := by
  unfold handleButtons; dsimp only
  split_ifs <;> exact ⟨rfl, rfl, rfl, rfl, rfl⟩

theorem readJoysticks_frozen (js : List Joystick) (s : Engine) :
    (readJoysticks js s).rdrops = s.rdrops ∧ (readJoysticks js s).frame = s.frame ∧
      (readJoysticks js s).rng = s.rng ∧ (readJoysticks js s).counter = s.counter ∧
      (readJoysticks js s).col1 = s.col1 := by
  induction js generalizing s with
  | nil => exact ⟨rfl, rfl, rfl, rfl, rfl⟩
  | cons j js ih =>
    obtain ⟨h1, h2, h3, h4, h5⟩ := ih (handleButtons s j)
    obtain ⟨k1, k2, k3, k4, k5⟩ := handleButtons_frozen s j
    exact ⟨h1.trans k1, h2.trans k2, h3.trans k3, h4.trans k4, h5.trans k5⟩

theorem handleButtons_isPaused (s : Engine) (j : Joystick) (h : j.press3 = false) :
    (handleButtons s j).isPaused = s.isPaused := by
  unfold handleButtons
  simp only [h, Bool.false_eq_true, if_false]
  split_ifs <;> rfl

theorem readJoysticks_isPaused (js : List Joystick) (s : Engine)
    (h : ∀ j, j ∈ js → j.press3 = false) : (readJoysticks js s).isPaused = s.isPaused := by
  induction js generalizing s with
  | nil => rfl
  | cons j js ih =>
    have h1 := ih (handleButtons s j) (fun k hk => h k (List.mem_cons_of_mem j hk))
    exact h1.trans (handleButtons_isPaused s j (h j (List.mem_cons_self j js)))

theorem loop_of_paused (h : Host) (js : List Joystick) (s : Engine)
    (hp : (readJoysticks js s).isPaused = true) : loop h js s = (readJoysticks js s, true) := by
  unfold loop; dsimp only
  rw [if_pos hp]

/-- C5 (pause freezes the state). When the pause flag is set once the joystick loop of
a call has run, `loop` returns true and leaves the drop collection, the record of
display calls (no `fade`, no `setPixel3D`, no `render`), the generator (no spawn, no
rim draw), the tick counter and the spawn colour unchanged. A second call whose
joysticks report no button-3 edge is paused as well and leaves all of them as they
were before the first call. -/
theorem loop_paused_freezes (h : Host) (js js2 : List Joystick) (s : Engine)
    (hp : (readJoysticks js s).isPaused = true) :
    ((loop h js s).2 = true ∧ (loop h js s).1.rdrops = s.rdrops ∧
      (loop h js s).1.frame = s.frame ∧ (loop h js s).1.rng = s.rng ∧
      (loop h js s).1.counter = s.counter ∧ (loop h js s).1.col1 = s.col1 ∧
      (loop h js s).1.isPaused = true) ∧
    ((∀ j, j ∈ js2 → j.press3 = false) →
      (loop h js2 (loop h js s).1).2 = true ∧
      (loop h js2 (loop h js s).1).1.rdrops = s.rdrops ∧
      (loop h js2 (loop h js s).1).1.frame = s.frame ∧
      (loop h js2 (loop h js s).1).1.rng = s.rng ∧
      (loop h js2 (loop h js s).1).1.counter = s.counter ∧
      (loop h js2 (loop h js s).1).1.col1 = s.col1 ∧
      (loop h js2 (loop h js s).1).1.isPaused = true) := by
  obtain ⟨k1, k2, k3, k4, k5⟩ := readJoysticks_frozen js s
  rw [loop_of_paused h js s hp]
  refine ⟨⟨rfl, k1, k2, k3, k4, k5, hp⟩, fun h3 => ?_⟩
  have hp2 : (readJoysticks js2 (readJoysticks js s)).isPaused = true :=
    (readJoysticks_isPaused js2 _ h3).trans hp
  obtain ⟨m1, m2, m3, m4, m5⟩ := readJoysticks_frozen js2 (readJoysticks js s)
  rw [loop_of_paused h js2 _ hp2]
  exact ⟨rfl, m1.trans k1, m2.trans k2, m3.trans k3, m4.trans k4, m5.trans k5, hp2⟩

/-! ## Stepping, drawing and removing -/

theorem loop_of_running (h : Host) (js : List Joystick) (s : Engine)
    (hp : (readJoysticks js s).isPaused = false) :
    (loop h js s).1.rdrops =
        (stepAndDraw h.center s.counter (spawn h s.col1 4 s.rdrops s.rng).1
          (nextColor h (readJoysticks js s).counterColChange s.col1
            (spawn h s.col1 4 s.rdrops s.rng).2).2).1.filter (fun r => !r.getRdyDelete) ∧
      (loop h js s).1.frame =
        s.frame ++ [DisplayCall.fade (readJoysticks js s).fade_factor] ++
          (stepAndDraw h.center s.counter (spawn h s.col1 4 s.rdrops s.rng).1
            (nextColor h (readJoysticks js s).counterColChange s.col1
              (spawn h s.col1 4 s.rdrops s.rng).2).2).2.1 ++ [DisplayCall.render] := by
  obtain ⟨k1, k2, k3, k4, k5⟩ := readJoysticks_frozen js s
  unfold loop; dsimp only
  rw [if_neg (by simp [hp]), k1, k2, k3, k4, k5]
  exact ⟨rfl, rfl⟩

theorem unsettled_after_loop (h : Host) (js : List Joystick) (s : Engine)
    (hs : ∀ d, d ∈ s.rdrops → d.getRdyDelete = false) :
    ∀ d, d ∈ (loop h js s).1.rdrops → d.getRdyDelete = false := by
  cases hp : (readJoysticks js s).isPaused with
  | true =>
    rw [loop_of_paused h js s hp, (readJoysticks_frozen js s).1]
    exact hs
  | false =>
    rw [(loop_of_running h js s hp).1]
    intro d hd
    simpa using (List.mem_filter.mp hd).2

theorem unsettled_after_run (h : Host) (calls : List (List Joystick)) (s : Engine)
    (hs : ∀ d, d ∈ s.rdrops → d.getRdyDelete = false) :
    ∀ d, d ∈ (run h calls s).rdrops → d.getRdyDelete = false := by
  induction calls generalizing s with
  | nil => exact hs
  | cons js rest ih => exact ih (loop h js s).1 (unsettled_after_loop h js s hs)

/-- C4 (settled drops are removed in the same tick). After a call of `loop` that is
not paused, the drop collection is the list of the drops as stepped in this call
(the old drops followed by the four spawned ones), with exactly the drops whose
`getRdyDelete` is true filtered out and the others kept in order; so no drop left in
the collection is settled. Hence, after any sequence of calls that starts with an
empty collection, the collection holds no settled drop. -/
theorem loop_removes_settled (h : Host) (js : List Joystick) (calls : List (List Joystick))
    (s : Engine) :
    ((readJoysticks js s).isPaused = false →
      (loop h js s).1.rdrops =
          (stepAndDraw h.center s.counter (spawn h s.col1 4 s.rdrops s.rng).1
            (nextColor h (readJoysticks js s).counterColChange s.col1
              (spawn h s.col1 4 s.rdrops s.rng).2).2).1.filter (fun r => !r.getRdyDelete) ∧
        (∀ d, d ∈ (loop h js s).1.rdrops → d.getRdyDelete = false) ∧
        (∀ d, d ∈ (stepAndDraw h.center s.counter (spawn h s.col1 4 s.rdrops s.rng).1
            (nextColor h (readJoysticks js s).counterColChange s.col1
              (spawn h s.col1 4 s.rdrops s.rng).2).2).1 →
          d.getRdyDelete = false → d ∈ (loop h js s).1.rdrops)) ∧
    (s.rdrops = [] → ∀ d, d ∈ (run h calls s).rdrops → d.getRdyDelete = false) := by
  constructor
  · intro hp
    have h1 := (loop_of_running h js s hp).1
    refine ⟨h1, ?_, ?_⟩
    · intro d hd
      rw [h1] at hd
      simpa using (List.mem_filter.mp hd).2
    · intro d hd hu
      rw [h1]
      exact List.mem_filter.mpr ⟨hd, by simp [hu]⟩
  · intro he
    exact unsettled_after_run h calls s (by rw [he]; simp)

/-! ## Pixel positions -/

theorem handleButtons_fade_factor_eq (s : Engine) (j : Joystick) :
    (handleButtons s j).fade_factor =
      if j.press7 = true ∧
          (if j.press6 = true ∧ s.fade_factor ≥ 0.05 then s.fade_factor - 0.2
            else s.fade_factor) ≤ 1.0 then
        (if j.press6 = true ∧ s.fade_factor ≥ 0.05 then s.fade_factor - 0.2
          else s.fade_factor) + 0.2
      else
        (if j.press6 = true ∧ s.fade_factor ≥ 0.05 then s.fade_factor - 0.2
          else s.fade_factor) := by
  unfold handleButtons; dsimp only
  cases j.press0 <;> cases j.press3 <;> cases j.press6 <;> cases j.press7 <;>
    simp only [Bool.false_eq_true, if_false, if_true, false_and, true_and] <;>
    split_ifs <;> rfl

/-- What the tests of lines 36 and 41 do guarantee: a fade factor between -0.15 and 1.2
stays between -0.15 and 1.2 under any button edges. -/
theorem handleButtons_fade_factor (s : Engine) (j : Joystick)
    (h0 : -0.15 ≤ s.fade_factor) (h1 : s.fade_factor ≤ 1.2) :
    -0.15 ≤ (handleButtons s j).fade_factor ∧ (handleButtons s j).fade_factor ≤ 1.2 := by
  rw [handleButtons_fade_factor_eq]
  have e0 : (-0.15 : ℚ) = -(3 / 20) := by norm_num
  have e1 : (1.2 : ℚ) = 6 / 5 := by norm_num
  have e2 : (0.05 : ℚ) = 1 / 20 := by norm_num
  have e3 : (0.2 : ℚ) = 1 / 5 := by norm_num
  have e4 : (1.0 : ℚ) = 1 := by norm_num
  have k0 : -(3 / 20 : ℚ) ≤ s.fade_factor := by rw [← e0]; exact h0
  have k1 : s.fade_factor ≤ 6 / 5 := by rw [← e1]; exact h1
  rw [e0, e1, e2, e3, e4]
  by_cases c1 : j.press6 = true ∧ s.fade_factor ≥ 1 / 20
  · simp only [if_pos c1]
    by_cases c2 : j.press7 = true ∧ s.fade_factor - 1 / 5 ≤ 1
    · rw [if_pos c2]; constructor <;> linarith [c1.2, c2.2]
    · rw [if_neg c2]; constructor <;> linarith [c1.2]
  · simp only [if_neg c1]
    by_cases c2 : j.press7 = true ∧ s.fade_factor ≤ 1
    · rw [if_pos c2]; constructor <;> linarith [c2.2]
    · rw [if_neg c2]; exact ⟨k0, k1⟩

theorem readJoysticks_fade_factor (js : List Joystick) (s : Engine)
    (h0 : -0.15 ≤ s.fade_factor) (h1 : s.fade_factor ≤ 1.2) :
    -0.15 ≤ (readJoysticks js s).fade_factor ∧ (readJoysticks js s).fade_factor ≤ 1.2 := by
  induction js generalizing s with
  | nil => exact ⟨h0, h1⟩
  | cons j js ih =>
    obtain ⟨k0, k1⟩ := handleButtons_fade_factor s j h0 h1
    exact ih (handleButtons s j) k0 k1

/-- C2 (fade clamp) fails on the code. From the default fade factor 0.9, which is in
[0.05, 1.0], a single button-7 edge makes the fade factor 1.1, above 1.0; and five
button-6 edges (one per call) make it -0.1, below 0.05. The tests of lines 36 and 41
look at the value before the step of 0.2 and nothing clamps the value after it. -/
theorem fade_factor_leaves_range :
    (0.05 ≤ freshEngine.fade_factor ∧ freshEngine.fade_factor ≤ 1.0) ∧
    (loop gridHost [pressSeven] freshEngine).1.fade_factor = 1.1 ∧
    (1.0 : ℚ) < (loop gridHost [pressSeven] freshEngine).1.fade_factor ∧
    (run gridHost [[pressSix], [pressSix], [pressSix], [pressSix], [pressSix]]
      freshEngine).fade_factor = -0.1 ∧
    (run gridHost [[pressSix], [pressSix], [pressSix], [pressSix], [pressSix]]
      freshEngine).fade_factor < 0.05 := by
  decide!

theorem loop_paused_freezes_witness :
    (readJoysticks [pressThree] freshEngine).isPaused = true ∧
    (loop gridHost [pressThree] freshEngine).1.rdrops = freshEngine.rdrops ∧
    (loop gridHost [pressThree] freshEngine).1.frame = freshEngine.frame ∧
    (loop gridHost [pressSix] (loop gridHost [pressThree] freshEngine).1).1.rdrops =
      freshEngine.rdrops ∧
    (loop gridHost [pressSix] (loop gridHost [pressThree] freshEngine).1).1.frame =
      freshEngine.frame :=
  have h := loop_paused_freezes gridHost [pressThree] [pressSix] freshEngine (by decide!)
  have h2 := h.2 (by decide)
  ⟨by decide!, h.1.2.1, h.1.2.2.1, h2.2.1, h2.2.2.1⟩

theorem loop_removes_settled_witness :
    (readJoysticks [] freshEngine).isPaused = false ∧ freshEngine.rdrops = [] ∧
    (∀ d, d ∈ (loop gridHost [] freshEngine).1.rdrops → d.getRdyDelete = false) ∧
    (∀ d, d ∈ (run gridHost [[], [pressThree], [], [pressThree], []] freshEngine).rdrops →
      d.getRdyDelete = false) :=
  have h := loop_removes_settled gridHost [] [[], [pressThree], [], [pressThree], []] freshEngine
  ⟨by decide!, rfl, (h.1 (by decide!)).2.1, h.2 rfl⟩

/-! ## Rounding to the nearest binary floating-point number -/

theorem roundHalfEven_intCast (n : ℤ) : roundHalfEven (n : ℚ) = n := by
  unfold roundHalfEven
  simp

theorem roundHalfEven_floor (q : ℚ) : ⌊q⌋ ≤ roundHalfEven q ∧ roundHalfEven q ≤ ⌊q⌋ + 1 := by
  unfold roundHalfEven
  split_ifs <;> constructor <;> omega

theorem roundHalfEven_mono {a b : ℚ} (h : a ≤ b) : roundHalfEven a ≤ roundHalfEven b := by
  have hf : ⌊a⌋ ≤ ⌊b⌋ := Int.floor_mono h
  rcases hf.lt_or_eq with hlt | heq
  · have h1 := (roundHalfEven_floor a).2
    have h2 := (roundHalfEven_floor b).1
    omega
  · unfold roundHalfEven
    rw [← heq]
    have hab : a - ⌊a⌋ ≤ b - ⌊a⌋ := by linarith
    split_ifs <;> first | omega | (exfalso; linarith)

theorem roundHalfEven_le_of_le {a : ℚ} {n : ℤ} (h : a ≤ n) : roundHalfEven a ≤ n := by
  have := roundHalfEven_mono h
  rwa [roundHalfEven_intCast] at this

theorem roundHalfEven_ge_of_le {a : ℚ} {n : ℤ} (h : (n : ℚ) ≤ a) : n ≤ roundHalfEven a := by
  have := roundHalfEven_mono h
  rwa [roundHalfEven_intCast] at this

theorem roundHalfEven_neg (a : ℚ) : roundHalfEven (-a) = -roundHalfEven a := by
  by_cases hi : (⌊a⌋ : ℚ) = a
  · rw [← hi, ← Int.cast_neg, roundHalfEven_intCast, roundHalfEven_intCast]
  · have h1 : (⌊a⌋ : ℚ) < a := lt_of_le_of_ne (Int.floor_le a) hi
    have h2 : a < ⌊a⌋ + 1 := Int.lt_floor_add_one a
    have hf : ⌊-a⌋ = -⌊a⌋ - 1 := by
      rw [Int.floor_eq_iff]
      push_cast
      constructor <;> linarith
    unfold roundHalfEven
    rw [hf]
    push_cast
    split_ifs <;> first | omega | (exfalso; linarith)

theorem bitLength_spec (fuel n : ℕ) (h1 : 1 ≤ n) (hf : n ≤ fuel) :
    2 ^ bitLength fuel n ≤ n ∧ n < 2 ^ (bitLength fuel n + 1) := by
  induction fuel generalizing n with
  | zero => omega
  | succ fuel ih =>
    unfold bitLength
    split_ifs with h2
    · constructor
      · simpa using h1
      · simpa using h2
    · obtain ⟨i1, i2⟩ := ih (n / 2) (by omega) (by omega)
      constructor
      · calc 2 ^ (bitLength fuel (n / 2) + 1) = 2 ^ bitLength fuel (n / 2) * 2 := pow_succ _ _
          _ ≤ (n / 2) * 2 := Nat.mul_le_mul_right _ i1
          _ ≤ n := Nat.div_mul_le_self n 2
      · have h3 : n < (n / 2 + 1) * 2 := by omega
        calc n < (n / 2 + 1) * 2 := h3
          _ ≤ 2 ^ (bitLength fuel (n / 2) + 1) * 2 := Nat.mul_le_mul_right _ i2
          _ = 2 ^ (bitLength fuel (n / 2) + 1 + 1) := (pow_succ _ _).symm

/-- The function `binaryExponent` returns the binary exponent of a positive rational. -/
theorem binaryExponent_spec (v : ℚ) (hv : 0 < v) :
    (2 : ℚ) ^ binaryExponent v ≤ v ∧ v < (2 : ℚ) ^ (binaryExponent v + 1) := by
  have hn : 0 < v.num := Rat.num_pos.mpr hv
  have hd : 0 < v.den := v.den_pos
  obtain ⟨a1, a2⟩ := bitLength_spec v.num.natAbs v.num.natAbs (by omega) le_rfl
  obtain ⟨b1, b2⟩ := bitLength_spec v.den v.den hd le_rfl
  have hnum : ((v.num.natAbs : ℕ) : ℚ) = (v.num : ℚ) := by
    rw [Nat.cast_natAbs, abs_of_pos hn]
  have hveq : v = ((v.num.natAbs : ℕ) : ℚ) / ((v.den : ℕ) : ℚ) := by
    rw [hnum]; exact (Rat.num_div_den v).symm
  unfold binaryExponent
  generalize bitLength v.num.natAbs v.num.natAbs = a at a1 a2 ⊢
  generalize bitLength v.den v.den = b at b1 b2 ⊢
  have A1 : (2 : ℚ) ^ a ≤ ((v.num.natAbs : ℕ) : ℚ) := by exact_mod_cast a1
  have A2 : ((v.num.natAbs : ℕ) : ℚ) < (2 : ℚ) ^ (a + 1) := by exact_mod_cast a2
  have B1 : (2 : ℚ) ^ b ≤ ((v.den : ℕ) : ℚ) := by exact_mod_cast b1
  have B2 : ((v.den : ℕ) : ℚ) < (2 : ℚ) ^ (b + 1) := by exact_mod_cast b2
  have hdq : (0 : ℚ) < ((v.den : ℕ) : ℚ) := by exact_mod_cast hd
  have hnq : (0 : ℚ) < ((v.num.natAbs : ℕ) : ℚ) := by rw [hnum]; exact_mod_cast hn
  have pa : (0 : ℚ) < (2 : ℚ) ^ a := by positivity
  have pb : (0 : ℚ) < (2 : ℚ) ^ b := by positivity
  have up : v < (2 : ℚ) ^ ((a : ℤ) - (b : ℤ) + 1) := by
    have e : (2 : ℚ) ^ ((a : ℤ) - (b : ℤ) + 1) = (2 : ℚ) ^ (a + 1) / (2 : ℚ) ^ b := by
      rw [show ((a : ℤ) - (b : ℤ) + 1) = ((a + 1 : ℕ) : ℤ) - ((b : ℕ) : ℤ) by push_cast; ring,
        zpow_sub₀ (by norm_num), zpow_natCast, zpow_natCast]
    rw [e, hveq, div_lt_div_iff₀ hdq pb]
    calc ((v.num.natAbs : ℕ) : ℚ) * (2 : ℚ) ^ b < (2 : ℚ) ^ (a + 1) * (2 : ℚ) ^ b :=
          mul_lt_mul_of_pos_right A2 pb
      _ ≤ (2 : ℚ) ^ (a + 1) * ((v.den : ℕ) : ℚ) :=
          mul_le_mul_of_nonneg_left B1 (by positivity)
  have low : (2 : ℚ) ^ ((a : ℤ) - (b : ℤ) - 1) ≤ v := by
    have e : (2 : ℚ) ^ ((a : ℤ) - (b : ℤ) - 1) = (2 : ℚ) ^ a / (2 : ℚ) ^ (b + 1) := by
      rw [show ((a : ℤ) - (b : ℤ) - 1) = ((a : ℕ) : ℤ) - ((b + 1 : ℕ) : ℤ) by push_cast; ring,
        zpow_sub₀ (by norm_num), zpow_natCast, zpow_natCast]
    rw [e, hveq, div_le_div_iff₀ (by positivity) hdq]
    calc (2 : ℚ) ^ a * ((v.den : ℕ) : ℚ) ≤ (2 : ℚ) ^ a * (2 : ℚ) ^ (b + 1) :=
          mul_le_mul_of_nonneg_left B2.le pa.le
      _ ≤ ((v.num.natAbs : ℕ) : ℚ) * (2 : ℚ) ^ (b + 1) :=
          mul_le_mul_of_nonneg_right A1 (by positivity)
  split_ifs with hc
  · exact ⟨hc, up⟩
  · constructor
    · exact low
    · rw [sub_add_cancel]
      exact not_le.mp hc

theorem spacing_pos (prec : ℕ) (emin : ℤ) (v : ℚ) : 0 < spacing prec emin v := by
  unfold spacing; positivity

theorem spacing_neg (prec : ℕ) (emin : ℤ) (v : ℚ) : spacing prec emin (-v) = spacing prec emin v := by
  unfold spacing; rw [abs_neg]

theorem roundBinary_eq (prec : ℕ) (emin : ℤ) (v : ℚ) (hv : v ≠ 0) :
    roundBinary prec emin v =
      (roundHalfEven (v / spacing prec emin v) : ℚ) * spacing prec emin v := by
  unfold roundBinary spacing
  rw [if_neg hv]

theorem roundBinary_zero (prec : ℕ) (emin : ℤ) : roundBinary prec emin 0 = 0 := by
  unfold roundBinary
  rw [if_pos rfl]

theorem roundBinary_neg (prec : ℕ) (emin : ℤ) (v : ℚ) :
    roundBinary prec emin (-v) = -roundBinary prec emin v := by
  by_cases hv : v = 0
  · rw [hv, neg_zero, roundBinary_zero, neg_zero]
  · rw [roundBinary_eq prec emin (-v) (neg_ne_zero.mpr hv), roundBinary_eq prec emin v hv,
      spacing_neg, neg_div, roundHalfEven_neg]
    push_cast
    ring

theorem roundBinary_nonneg (prec : ℕ) (emin : ℤ) (v : ℚ) (hv : 0 ≤ v) :
    0 ≤ roundBinary prec emin v := by
  by_cases h0 : v = 0
  · rw [h0, roundBinary_zero]
  · rw [roundBinary_eq prec emin v h0]
    have hs := spacing_pos prec emin v
    have h1 : (0 : ℤ) ≤ roundHalfEven (v / spacing prec emin v) :=
      roundHalfEven_ge_of_le (by push_cast; positivity)
    have h2 : (0 : ℚ) ≤ (roundHalfEven (v / spacing prec emin v) : ℚ) := by exact_mod_cast h1
    positivity

theorem roundBinary_nonpos (prec : ℕ) (emin : ℤ) (v : ℚ) (hv : v ≤ 0) :
    roundBinary prec emin v ≤ 0 := by
  have h := roundBinary_nonneg prec emin (-v) (by linarith)
  rw [roundBinary_neg] at h
  linarith

theorem binaryExponent_mono {v w : ℚ} (hv : 0 < v) (h : v ≤ w) :
    binaryExponent v ≤ binaryExponent w := by
  by_contra hc
  push_neg at hc
  have h1 := (binaryExponent_spec v hv).1
  have h2 := (binaryExponent_spec w (lt_of_lt_of_le hv h)).2
  have h3 : (2 : ℚ) ^ (binaryExponent w + 1) ≤ (2 : ℚ) ^ binaryExponent v :=
    zpow_le_zpow_right₀ (by norm_num) (by omega)
  linarith

/-- The rounded value of a positive number is at most the next power of two. -/
theorem roundBinary_upper (prec : ℕ) (emin : ℤ) (v : ℚ) (hv : 0 < v) :
    roundBinary prec emin v ≤ (2 : ℚ) ^ (max (binaryExponent v) emin + 1) := by
  have hs := spacing_pos prec emin v
  have e0 : spacing prec emin v = (2 : ℚ) ^ (max (binaryExponent v) emin - ((prec : ℤ) - 1)) := by
    unfold spacing; rw [abs_of_pos hv]
  have e1 : (((2 : ℤ) ^ prec : ℤ) : ℚ) * spacing prec emin v =
      (2 : ℚ) ^ (max (binaryExponent v) emin + 1) := by
    rw [e0]
    push_cast
    rw [← zpow_natCast, ← zpow_add₀ (by norm_num)]
    congr 1
    ring
  have h1 : v < (2 : ℚ) ^ (max (binaryExponent v) emin + 1) :=
    lt_of_lt_of_le (binaryExponent_spec v hv).2
      (zpow_le_zpow_right₀ (by norm_num) (by have := le_max_left (binaryExponent v) emin; omega))
  have h2 : v / spacing prec emin v ≤ (((2 : ℤ) ^ prec : ℤ) : ℚ) := by
    rw [div_le_iff₀ hs, e1]
    exact h1.le
  have h3 : (roundHalfEven (v / spacing prec emin v) : ℚ) ≤ (((2 : ℤ) ^ prec : ℤ) : ℚ) := by
    exact_mod_cast roundHalfEven_le_of_le h2
  rw [roundBinary_eq prec emin v hv.ne', ← e1]
  exact mul_le_mul_of_nonneg_right h3 hs.le

/-- The rounded value of a positive normal number is at least the power of two below it. -/
theorem roundBinary_lower (prec : ℕ) (emin : ℤ) (v : ℚ) (hp : 1 ≤ prec) (hv : 0 < v)
    (he : emin ≤ binaryExponent v) :
    (2 : ℚ) ^ binaryExponent v ≤ roundBinary prec emin v := by
  have hs := spacing_pos prec emin v
  have e0 : spacing prec emin v = (2 : ℚ) ^ (binaryExponent v - ((prec : ℤ) - 1)) := by
    unfold spacing; rw [abs_of_pos hv, max_eq_left he]
  have e1 : (((2 : ℤ) ^ (prec - 1) : ℤ) : ℚ) * spacing prec emin v =
      (2 : ℚ) ^ binaryExponent v := by
    rw [e0]
    push_cast
    rw [← zpow_natCast, ← zpow_add₀ (by norm_num)]
    congr 1
    have : ((prec - 1 : ℕ) : ℤ) = (prec : ℤ) - 1 := by omega
    rw [this]
    ring
  have h2 : (((2 : ℤ) ^ (prec - 1) : ℤ) : ℚ) ≤ v / spacing prec emin v := by
    rw [le_div_iff₀ hs, e1]
    exact (binaryExponent_spec v hv).1
  have h3 : (((2 : ℤ) ^ (prec - 1) : ℤ) : ℚ) ≤ (roundHalfEven (v / spacing prec emin v) : ℚ) := by
    exact_mod_cast roundHalfEven_ge_of_le h2
  rw [roundBinary_eq prec emin v hv.ne', ← e1]
  exact mul_le_mul_of_nonneg_right h3 hs.le

theorem roundBinary_mono_pos (prec : ℕ) (emin : ℤ) {v w : ℚ} (hp : 1 ≤ prec) (hv : 0 < v)
    (h : v ≤ w) : roundBinary prec emin v ≤ roundBinary prec emin w := by
  have hw : 0 < w := lt_of_lt_of_le hv h
  have hE := binaryExponent_mono hv h
  rcases (max_le_max hE (le_refl emin)).lt_or_eq with hlt | heq
  · have he : emin < binaryExponent w := by
      by_contra hc
      push_neg at hc
      rw [max_eq_right hc] at hlt
      exact absurd (le_max_right (binaryExponent v) emin) (not_le.mpr hlt)
    have e2 : max (binaryExponent w) emin = binaryExponent w := max_eq_left he.le
    rw [e2] at hlt
    calc roundBinary prec emin v ≤ (2 : ℚ) ^ (max (binaryExponent v) emin + 1) :=
          roundBinary_upper prec emin v hv
      _ ≤ (2 : ℚ) ^ binaryExponent w := zpow_le_zpow_right₀ (by norm_num) (by omega)
      _ ≤ roundBinary prec emin w := roundBinary_lower prec emin w hp hw he.le
  · have es : spacing prec emin v = spacing prec emin w := by
      unfold spacing; rw [abs_of_pos hv, abs_of_pos hw, heq]
    have hs := spacing_pos prec emin w
    rw [roundBinary_eq prec emin v hv.ne', roundBinary_eq prec emin w hw.ne', es]
    have h1 : roundHalfEven (v / spacing prec emin w) ≤ roundHalfEven (w / spacing prec emin w) :=
      roundHalfEven_mono (div_le_div_of_nonneg_right h hs.le)
    have h2 : (roundHalfEven (v / spacing prec emin w) : ℚ) ≤
        (roundHalfEven (w / spacing prec emin w) : ℚ) := by exact_mod_cast h1
    exact mul_le_mul_of_nonneg_right h2 hs.le

/-- Rounding to a binary floating-point format is monotone. -/
theorem roundBinary_mono (prec : ℕ) (emin : ℤ) {v w : ℚ} (hp : 1 ≤ prec) (h : v ≤ w) :
    roundBinary prec emin v ≤ roundBinary prec emin w := by
  rcases lt_trichotomy 0 v with hv | hv | hv
  · exact roundBinary_mono_pos prec emin hp hv h
  · rw [← hv, roundBinary_zero]
    exact roundBinary_nonneg prec emin w (by linarith)
  · rcases le_or_lt 0 w with hw | hw
    · exact le_trans (roundBinary_nonpos prec emin v hv.le) (roundBinary_nonneg prec emin w hw)
    · have h1 := roundBinary_mono_pos prec emin hp (show 0 < -w by linarith)
        (show -w ≤ -v by linarith)
      rw [roundBinary_neg, roundBinary_neg] at h1
      linarith

theorem roundBinary_idem_pos (prec : ℕ) (emin : ℤ) (v : ℚ) (hp : 1 ≤ prec) (hv : 0 < v) :
    roundBinary prec emin (roundBinary prec emin v) = roundBinary prec emin v := by
  have hw0 := roundBinary_nonneg prec emin v hv.le
  rcases hw0.lt_or_eq with hw | hw
  swap
  · rw [← hw, roundBinary_zero]
  have hup := roundBinary_upper prec emin v hv
  have hsv := spacing_pos prec emin v
  have hsw := spacing_pos prec emin (roundBinary prec emin v)
  have esv : spacing prec emin v =
      (2 : ℚ) ^ (max (binaryExponent v) emin - ((prec : ℤ) - 1)) := by
    unfold spacing; rw [abs_of_pos hv]
  have esw : spacing prec emin (roundBinary prec emin v) =
      (2 : ℚ) ^ (max (binaryExponent (roundBinary prec emin v)) emin - ((prec : ℤ) - 1)) := by
    unfold spacing; rw [abs_of_pos hw]
  have hspec := binaryExponent_spec _ hw
  -- the rounded value is an integer multiple of its own spacing
  have key : ∃ k : ℤ, roundBinary prec emin v / spacing prec emin (roundBinary prec emin v) = k := by
    rcases hup.lt_or_eq with hlt | heq
    · have hE : binaryExponent (roundBinary prec emin v) ≤ max (binaryExponent v) emin := by
        have h1 : (2 : ℚ) ^ binaryExponent (roundBinary prec emin v) <
            (2 : ℚ) ^ (max (binaryExponent v) emin + 1) := lt_of_le_of_lt hspec.1 hlt
        have h2 := (zpow_lt_zpow_iff_right₀ (by norm_num : (1 : ℚ) < 2)).mp h1
        omega
      have hE2 : max (binaryExponent (roundBinary prec emin v)) emin ≤
          max (binaryExponent v) emin := max_le hE (le_max_right _ _)
      obtain ⟨j, hj⟩ : ∃ j : ℕ, (j : ℤ) = max (binaryExponent v) emin -
          max (binaryExponent (roundBinary prec emin v)) emin :=
        ⟨(max (binaryExponent v) emin -
          max (binaryExponent (roundBinary prec emin v)) emin).toNat,
          Int.toNat_of_nonneg (by omega)⟩
      refine ⟨roundHalfEven (v / spacing prec emin v) * 2 ^ j, ?_⟩
      rw [div_eq_iff hsw.ne']
      nth_rewrite 1 [roundBinary_eq prec emin v hv.ne']
      rw [esv, esw]
      push_cast
      rw [mul_assoc, ← zpow_natCast, ← zpow_add₀ (by norm_num), hj]
      congr 2
      ring
    · have hE : binaryExponent (roundBinary prec emin v) = max (binaryExponent v) emin + 1 := by
        have h1 : (2 : ℚ) ^ binaryExponent (roundBinary prec emin v) ≤
            (2 : ℚ) ^ (max (binaryExponent v) emin + 1) := by rw [← heq]; exact hspec.1
        have h2 : (2 : ℚ) ^ (max (binaryExponent v) emin + 1) <
            (2 : ℚ) ^ (binaryExponent (roundBinary prec emin v) + 1) := by
          rw [← heq]; exact hspec.2
        have h3 := (zpow_le_zpow_iff_right₀ (by norm_num : (1 : ℚ) < 2)).mp h1
        have h4 := (zpow_lt_zpow_iff_right₀ (by norm_num : (1 : ℚ) < 2)).mp h2
        omega
      have h5 : ((prec - 1 : ℕ) : ℤ) = (prec : ℤ) - 1 := by omega
      have h6 := le_max_right (binaryExponent v) emin
      have h7 : max (max (binaryExponent v) emin + 1) emin = max (binaryExponent v) emin + 1 :=
        max_eq_left (by omega)
      refine ⟨2 ^ (prec - 1), ?_⟩
      rw [div_eq_iff hsw.ne', esw, hE, h7]
      nth_rewrite 1 [heq]
      push_cast
      rw [← zpow_natCast, ← zpow_add₀ (by norm_num), h5]
      congr 1
      ring
  obtain ⟨k, hk⟩ := key
  rw [roundBinary_eq prec emin _ hw.ne', hk, roundHalfEven_intCast, ← hk,
    div_mul_cancel₀ _ hsw.ne']

/-- A value already rounded to a binary floating-point format is left as it is. -/
theorem roundBinary_idem (prec : ℕ) (emin : ℤ) (v : ℚ) (hp : 1 ≤ prec) :
    roundBinary prec emin (roundBinary prec emin v) = roundBinary prec emin v := by
  rcases lt_trichotomy 0 v with hv | hv | hv
  · exact roundBinary_idem_pos prec emin v hp hv
  · rw [← hv, roundBinary_zero, roundBinary_zero]
  · have h := roundBinary_idem_pos prec emin (-v) hp (by linarith)
    rw [roundBinary_neg, roundBinary_neg] at h
    exact neg_injective h

theorem f32_zero : f32 0 = 0 := roundBinary_zero 24 (-126)

theorem f32_nonneg {v : ℚ} (h : 0 ≤ v) : 0 ≤ f32 v := roundBinary_nonneg 24 (-126) v h

theorem f32_nonpos {v : ℚ} (h : v ≤ 0) : f32 v ≤ 0 := roundBinary_nonpos 24 (-126) v h

theorem f32_mono {v w : ℚ} (h : v ≤ w) : f32 v ≤ f32 w :=
  roundBinary_mono 24 (-126) (by norm_num) h

theorem f32_idem (v : ℚ) : f32 (f32 v) = f32 v := roundBinary_idem 24 (-126) v (by norm_num)

theorem f32_neg (v : ℚ) : f32 (-v) = -f32 v := roundBinary_neg 24 (-126) v

theorem f32_one : f32 1 = 1 := by decide!

theorem f64_nonneg {v : ℚ} (h : 0 ≤ v) : 0 ≤ f64 v := roundBinary_nonneg 53 (-1022) v h

theorem toFloat_nonneg {n : ℤ} (h : 0 ≤ n) : 0 ≤ toFloat n :=
  f32_nonneg (by exact_mod_cast h)

theorem toFloat_pos {n : ℤ} (h : 0 < n) : 0 < toFloat n := by
  have h1 : (1 : ℚ) ≤ (n : ℚ) := by exact_mod_cast h
  have h2 := f32_mono h1
  rw [f32_one] at h2
  exact lt_of_lt_of_le one_pos h2

theorem toFloat_idem (n : ℤ) : f32 (toFloat n) = toFloat n := f32_idem _

/-- A `float` below an `int` is at most the `float` the `int` converts to. -/
theorem le_toFloat {c : ℚ} {n : ℤ} (hc : f32 c = c) (h : c ≤ n) : c ≤ toFloat n := by
  have := f32_mono h
  rwa [hc] at this

/-- The constants of lines 125 and 126 as stored: `0.2` becomes 13421773 / 2^26, and
the ten possible accelerations lie between 0.001 and 12348031 / 2^28. -/
theorem rim_constants :
    f32 (f64 0.2) = 13421773 / 67108864 ∧
    ∀ r, r < 10 →
      (0.001 : ℚ) ≤ f32 (f64 (f64 0.001 + f32 (((r : ℕ) : ℚ) / 200))) ∧
      f32 (f64 (f64 0.001 + f32 (((r : ℕ) : ℚ) / 200))) ≤ 12348031 / 268435456 := by
  decide!

/-! ## Frame lemmas for the binary32 reading -/

section FrameF32

variable (c : ℚ) (d : Drop) (g : Rng)

@[simp] theorem settleRuleF32_toParticle : d.settleRuleF32.toParticle = d.toParticle := by
  unfold Drop.settleRuleF32; split_ifs <;> rfl

@[simp] theorem settleRuleF32_maxPos : d.settleRuleF32.maxPos_ = d.maxPos_ := by
  unfold Drop.settleRuleF32; split_ifs <;> rfl

@[simp] theorem settleRuleF32_vxOld : d.settleRuleF32.vxOld_ = d.vxOld_ := by
  unfold Drop.settleRuleF32; split_ifs <;> rfl

@[simp] theorem settleRuleF32_vyOld : d.settleRuleF32.vyOld_ = d.vyOld_ := by
  unfold Drop.settleRuleF32; split_ifs <;> rfl

@[simp] theorem centerRuleF32_position : (d.centerRuleF32 c).position_ = d.position_ := by
  unfold Drop.centerRuleF32; dsimp only; split_ifs <;> rfl

@[simp] theorem centerRuleF32_acceleration :
    (d.centerRuleF32 c).acceleration_ = d.acceleration_ := by
  unfold Drop.centerRuleF32; dsimp only; split_ifs <;> rfl

@[simp] theorem centerRuleF32_maxPos : (d.centerRuleF32 c).maxPos_ = d.maxPos_ := by
  unfold Drop.centerRuleF32; dsimp only; split_ifs <;> rfl

@[simp] theorem centerRuleF32_rdyDelete : (d.centerRuleF32 c).rdyDelete_ = d.rdyDelete_ := by
  unfold Drop.centerRuleF32; dsimp only; split_ifs <;> rfl

@[simp] theorem depthRuleF32_maxPos : d.depthRuleF32.maxPos_ = d.maxPos_ := by
  unfold Drop.depthRuleF32; dsimp only; split_ifs <;> rfl

@[simp] theorem depthRuleF32_rdyDelete : d.depthRuleF32.rdyDelete_ = d.rdyDelete_ := by
  unfold Drop.depthRuleF32; dsimp only; split_ifs <;> rfl

@[simp] theorem depthRuleF32_vxOld : d.depthRuleF32.vxOld_ = d.vxOld_ := by
  unfold Drop.depthRuleF32; dsimp only; split_ifs <;> rfl

@[simp] theorem depthRuleF32_vyOld : d.depthRuleF32.vyOld_ = d.vyOld_ := by
  unfold Drop.depthRuleF32; dsimp only; split_ifs <;> rfl

@[simp] theorem depthRuleF32_x : d.depthRuleF32.position_.x = d.position_.x := by
  unfold Drop.depthRuleF32; dsimp only; split_ifs <;> rfl

@[simp] theorem depthRuleF32_y : d.depthRuleF32.position_.y = d.position_.y := by
  unfold Drop.depthRuleF32; dsimp only; split_ifs <;> rfl

@[simp] theorem clampSidesF32_maxPos : d.clampSidesF32.maxPos_ = d.maxPos_ := by
  unfold Drop.clampSidesF32; dsimp only; split_ifs <;> rfl

@[simp] theorem clampSidesF32_velocity : d.clampSidesF32.velocity_ = d.velocity_ := by
  unfold Drop.clampSidesF32; dsimp only; split_ifs <;> rfl

@[simp] theorem clampSidesF32_acceleration : d.clampSidesF32.acceleration_ = d.acceleration_ := by
  unfold Drop.clampSidesF32; dsimp only; split_ifs <;> rfl

@[simp] theorem clampSidesF32_vxOld : d.clampSidesF32.vxOld_ = d.vxOld_ := by
  unfold Drop.clampSidesF32; dsimp only; split_ifs <;> rfl

@[simp] theorem clampSidesF32_vyOld : d.clampSidesF32.vyOld_ = d.vyOld_ := by
  unfold Drop.clampSidesF32; dsimp only; split_ifs <;> rfl

@[simp] theorem clampSidesF32_rdyDelete : d.clampSidesF32.rdyDelete_ = d.rdyDelete_ := by
  unfold Drop.clampSidesF32; dsimp only; split_ifs <;> rfl

@[simp] theorem rimRuleF32_maxPos : (d.rimRuleF32 g).1.maxPos_ = d.maxPos_ := by
  unfold Drop.rimRuleF32; dsimp only; split_ifs <;> rfl

@[simp] theorem rimRuleF32_position : (d.rimRuleF32 g).1.position_ = d.position_ := by
  unfold Drop.rimRuleF32; dsimp only; split_ifs <;> rfl

@[simp] theorem rimRuleF32_rdyDelete : (d.rimRuleF32 g).1.rdyDelete_ = d.rdyDelete_ := by
  unfold Drop.rimRuleF32; dsimp only; split_ifs <;> rfl

@[simp] theorem integrateF32_maxPos : d.integrateF32.maxPos_ = d.maxPos_ := rfl

@[simp] theorem integrateF32_rdyDelete : d.integrateF32.rdyDelete_ = d.rdyDelete_ := rfl

@[simp] theorem integrateF32_vxOld : d.integrateF32.vxOld_ = d.vxOld_ := rfl

@[simp] theorem integrateF32_vyOld : d.integrateF32.vyOld_ = d.vyOld_ := rfl

@[simp] theorem integrateF32_acceleration : d.integrateF32.acceleration_ = d.acceleration_ := rfl

@[simp] theorem stepF32_maxPos : (d.stepF32 c g).1.maxPos_ = d.maxPos_ := by
  simp [Drop.stepF32]

end FrameF32

@[simp] theorem stepNF32_maxPos (center : ℚ) (d : Drop) (g : Rng) (n : ℕ) :
    (Drop.stepNF32 center n d g).1.maxPos_ = d.maxPos_ := by
  induction n with
  | zero => rfl
  | succ n ih =>
    show (Drop.stepF32 center (Drop.stepNF32 center n d g).1
      (Drop.stepNF32 center n d g).2).1.maxPos_ = _
    rw [stepF32_maxPos, ih]

/-! ## The stages of `Drop::step` in the binary32 reading -/

theorem clampSidesF32_x (d : Drop) :
    d.clampSidesF32.position_.x =
      if (if d.position_.x < 0 then 0 else d.position_.x) > toFloat d.maxPos_.x then
        toFloat d.maxPos_.x
      else (if d.position_.x < 0 then 0 else d.position_.x) := by
  unfold Drop.clampSidesF32; dsimp only
  split_ifs <;> simp_all

theorem clampSidesF32_y (d : Drop) :
    d.clampSidesF32.position_.y =
      if (if d.position_.y < 0 then 0 else d.position_.y) > toFloat d.maxPos_.y then
        toFloat d.maxPos_.y
      else (if d.position_.y < 0 then 0 else d.position_.y) := by
  unfold Drop.clampSidesF32; dsimp only
  split_ifs <;> simp_all

theorem clampSidesF32_x_bounds (d : Drop) (hm : 0 ≤ d.maxPos_.x) :
    0 ≤ d.clampSidesF32.position_.x ∧ d.clampSidesF32.position_.x ≤ toFloat d.maxPos_.x := by
  have hm1 := toFloat_nonneg hm
  rw [clampSidesF32_x]
  split_ifs <;> constructor <;> linarith

theorem clampSidesF32_y_bounds (d : Drop) (hm : 0 ≤ d.maxPos_.y) :
    0 ≤ d.clampSidesF32.position_.y ∧ d.clampSidesF32.position_.y ≤ toFloat d.maxPos_.y := by
  have hm1 := toFloat_nonneg hm
  rw [clampSidesF32_y]
  split_ifs <;> constructor <;> linarith

theorem clampSidesF32_x_eq_clamp (d : Drop) (hm : 0 ≤ d.maxPos_.x) :
    d.clampSidesF32.position_.x = max 0 (min d.position_.x (toFloat d.maxPos_.x)) := by
  have hm1 := toFloat_nonneg hm
  rw [clampSidesF32_x]
  split_ifs with h1 h2 h2
  · rw [min_eq_left (by linarith), max_eq_left (by linarith)]; linarith
  · rw [min_eq_left (by linarith), max_eq_left (by linarith)]
  · rw [min_eq_right (by linarith), max_eq_right (by linarith)]
  · rw [min_eq_left (by linarith), max_eq_right (by linarith)]

theorem clampSidesF32_y_eq_clamp (d : Drop) (hm : 0 ≤ d.maxPos_.y) :
    d.clampSidesF32.position_.y = max 0 (min d.position_.y (toFloat d.maxPos_.y)) := by
  have hm1 := toFloat_nonneg hm
  rw [clampSidesF32_y]
  split_ifs with h1 h2 h2
  · rw [min_eq_left (by linarith), max_eq_left (by linarith)]; linarith
  · rw [min_eq_left (by linarith), max_eq_left (by linarith)]
  · rw [min_eq_right (by linarith), max_eq_right (by linarith)]
  · rw [min_eq_left (by linarith), max_eq_right (by linarith)]

theorem clampSidesF32_z_of_outside (d : Drop) (h : d.outsideF32) :
    d.clampSidesF32.position_.z = 0 := by
  unfold Drop.outsideF32 at h
  unfold Drop.clampSidesF32; dsimp only
  split_ifs <;> simp_all

theorem clampSidesF32_of_not_outside (d : Drop) (h : ¬ d.outsideF32) : d.clampSidesF32 = d := by
  unfold Drop.outsideF32 at h
  push_neg at h
  obtain ⟨h1, h2, h3, h4⟩ := h
  unfold Drop.clampSidesF32; dsimp only
  rw [if_neg (not_lt.mpr h1), if_neg (not_lt.mpr h2), if_neg (not_lt.mpr h3),
    if_neg (not_lt.mpr h4)]

theorem clampSidesF32_not_outside (d : Drop) (hx : 0 ≤ d.maxPos_.x) (hy : 0 ≤ d.maxPos_.y) :
    ¬ d.clampSidesF32.outsideF32 := by
  obtain ⟨h1, h2⟩ := clampSidesF32_x_bounds d hx
  obtain ⟨h3, h4⟩ := clampSidesF32_y_bounds d hy
  unfold Drop.outsideF32
  simp only [clampSidesF32_maxPos]
  push_neg
  exact ⟨h1, h3, h2, h4⟩

theorem depthRuleF32_z_bounds (d : Drop) (hm : 0 ≤ d.maxPos_.z) :
    0 ≤ d.depthRuleF32.position_.z ∧ d.depthRuleF32.position_.z ≤ toFloat d.maxPos_.z := by
  have hm1 := toFloat_nonneg hm
  unfold Drop.depthRuleF32; dsimp only
  split_ifs <;> simp_all

theorem depthRuleF32_of_inside (d : Drop) (h0 : 0 ≤ d.position_.z)
    (h1 : d.position_.z ≤ toFloat d.maxPos_.z) : d.depthRuleF32 = d := by
  unfold Drop.depthRuleF32; dsimp only
  rw [if_neg (not_lt.mpr h0), if_neg (not_lt.mpr h1)]

theorem depthRuleF32_of_deep (d : Drop) (h0 : 0 ≤ d.position_.z)
    (h : toFloat d.maxPos_.z < d.position_.z) :
    d.depthRuleF32.position_.z = toFloat d.maxPos_.z ∧
      d.depthRuleF32.velocity_ = ⟨d.vxOld_ * -1, d.vyOld_ * -1, 0⟩ ∧
      d.depthRuleF32.acceleration_ = ⟨0, 0, 0⟩ := by
  unfold Drop.depthRuleF32; dsimp only
  rw [if_neg (not_lt.mpr h0), if_pos h]
  exact ⟨rfl, rfl, rfl⟩

theorem centerRuleF32_of_still (center : ℚ) (d : Drop) (hx : d.velocity_.x = 0)
    (hy : d.velocity_.y = 0) : d.centerRuleF32 center = d := by
  have h1 : ¬ (((d.velocity_.x > 0 ∧ d.position_.x > center) ∨
      (d.velocity_.x < 0 ∧ d.position_.x < center)) ∧
      d.position_.z = toFloat d.maxPos_.z) := by
    rw [hx]; simp
  have h2 : ¬ (((d.velocity_.y > 0 ∧ d.position_.y > center) ∨
      (d.velocity_.y < 0 ∧ d.position_.y < center)) ∧
      d.position_.z = toFloat d.maxPos_.z) := by
    rw [hy]; simp
  unfold Drop.centerRuleF32; dsimp only
  rw [if_neg h1, if_neg h2]

theorem centerRuleF32_of_not_deep (center : ℚ) (d : Drop)
    (h : d.position_.z ≠ toFloat d.maxPos_.z) : d.centerRuleF32 center = d := by
  have h1 : ¬ (((d.velocity_.x > 0 ∧ d.position_.x > center) ∨
      (d.velocity_.x < 0 ∧ d.position_.x < center)) ∧
      d.position_.z = toFloat d.maxPos_.z) := fun hh => h hh.2
  have h2 : ¬ (((d.velocity_.y > 0 ∧ d.position_.y > center) ∨
      (d.velocity_.y < 0 ∧ d.position_.y < center)) ∧
      d.position_.z = toFloat d.maxPos_.z) := fun hh => h hh.2
  unfold Drop.centerRuleF32; dsimp only
  rw [if_neg h1, if_neg h2]

theorem centerRuleF32_of_inward (center : ℚ) (d : Drop)
    (hx : ¬ ((d.velocity_.x > 0 ∧ d.position_.x > center) ∨
      (d.velocity_.x < 0 ∧ d.position_.x < center)))
    (hy : ¬ ((d.velocity_.y > 0 ∧ d.position_.y > center) ∨
      (d.velocity_.y < 0 ∧ d.position_.y < center))) :
    d.centerRuleF32 center = d := by
  have h1 : ¬ (((d.velocity_.x > 0 ∧ d.position_.x > center) ∨
      (d.velocity_.x < 0 ∧ d.position_.x < center)) ∧
      d.position_.z = toFloat d.maxPos_.z) := fun hh => hx hh.1
  have h2 : ¬ (((d.velocity_.y > 0 ∧ d.position_.y > center) ∨
      (d.velocity_.y < 0 ∧ d.position_.y < center)) ∧
      d.position_.z = toFloat d.maxPos_.z) := fun hh => hy hh.1
  unfold Drop.centerRuleF32; dsimp only
  rw [if_neg h1, if_neg h2]

theorem settleRuleF32_of_not_deep (d : Drop) (h : d.position_.z ≠ toFloat d.maxPos_.z) :
    d.settleRuleF32 = d := by
  unfold Drop.settleRuleF32
  rw [if_neg (fun hh => h hh.2.2)]

/-- The drop the rim rule produces when x or y is outside the span. -/
theorem rimRuleF32_of_outside (d : Drop) (g : Rng) (h : d.outsideF32) :
    (d.rimRuleF32 g).1.velocity_ = ⟨0, 0, f32 (f64 0.2)⟩ ∧
    (d.rimRuleF32 g).1.acceleration_ =
      ⟨0, 0, f32 (f64 (f64 0.001 + f32 (((g 0 % 10 : ℕ) : ℚ) / 200)))⟩ ∧
    (d.rimRuleF32 g).1.vxOld_ = (if d.vxOld_ = 0 ∧ d.vyOld_ = 0 then d.velocity_.x else d.vxOld_) ∧
    (d.rimRuleF32 g).1.vyOld_ = (if d.vxOld_ = 0 ∧ d.vyOld_ = 0 then d.velocity_.y else d.vyOld_) ∧
    (d.rimRuleF32 g).2 = g.draw.2 := by
  unfold Drop.rimRuleF32
  rw [if_pos h]
  dsimp only [Rng.draw]
  split_ifs <;> simp

theorem rimRuleF32_of_not_outside (d : Drop) (g : Rng) (h : ¬ d.outsideF32) :
    d.rimRuleF32 g = (d, g) := by
  unfold Drop.rimRuleF32
  rw [if_neg h]

theorem rimRuleF32_outside_iff (d : Drop) (g : Rng) :
    (d.rimRuleF32 g).1.outsideF32 ↔ d.outsideF32 := by
  unfold Drop.outsideF32
  simp

/-- With a non-negative depth bound, a step whose `Particle::step()` leaves the span
only runs the rim rule, the side clamps and the settle test: the depth rule and the
stop rule find nothing to do. -/
theorem stepF32_of_outside (center : ℚ) (d : Drop) (g : Rng) (hz : 0 ≤ d.maxPos_.z)
    (h : d.integrateF32.outsideF32) :
    (d.stepF32 center g).1 = (d.integrateF32.rimRuleF32 g).1.clampSidesF32.settleRuleF32 := by
  obtain ⟨hv, -, -, -, -⟩ := rimRuleF32_of_outside d.integrateF32 g h
  have hout : (d.integrateF32.rimRuleF32 g).1.outsideF32 := (rimRuleF32_outside_iff _ g).mpr h
  have hz0 : (d.integrateF32.rimRuleF32 g).1.clampSidesF32.position_.z = 0 :=
    clampSidesF32_z_of_outside _ hout
  have hz1 : 0 ≤ toFloat d.maxPos_.z := toFloat_nonneg hz
  have hdepth : (d.integrateF32.rimRuleF32 g).1.clampSidesF32.depthRuleF32 =
      (d.integrateF32.rimRuleF32 g).1.clampSidesF32 :=
    depthRuleF32_of_inside _ (by rw [hz0]) (by rw [hz0]; simpa using hz1)
  have hcenter : (d.integrateF32.rimRuleF32 g).1.clampSidesF32.centerRuleF32 center =
      (d.integrateF32.rimRuleF32 g).1.clampSidesF32 :=
    centerRuleF32_of_still center _ (by simp [hv]) (by simp [hv])
  simp [Drop.stepF32, hdepth, hcenter]

theorem stepF32_of_not_outside (center : ℚ) (d : Drop) (g : Rng)
    (h : ¬ d.integrateF32.outsideF32) :
    d.stepF32 center g = ((d.integrateF32.depthRuleF32.centerRuleF32 center).settleRuleF32, g) := by
  simp [Drop.stepF32, rimRuleF32_of_not_outside _ g h, clampSidesF32_of_not_outside _ h]

/-! ## The range and flag properties in the binary32 reading -/

/-- The boundary invariant holds for `Drop::step` in `float` arithmetic as well: with
non-negative bounds every position component lies between 0 and its bound as
converted to `float`. -/
theorem stepF32_position_in_bounds (center : ℚ) (d : Drop) (g : Rng)
    (hx : 0 ≤ d.maxPos_.x) (hy : 0 ≤ d.maxPos_.y) (hz : 0 ≤ d.maxPos_.z) :
    (0 ≤ (d.stepF32 center g).1.position_.x ∧
      (d.stepF32 center g).1.position_.x ≤ toFloat d.maxPos_.x) ∧
    (0 ≤ (d.stepF32 center g).1.position_.y ∧
      (d.stepF32 center g).1.position_.y ≤ toFloat d.maxPos_.y) ∧
    (0 ≤ (d.stepF32 center g).1.position_.z ∧
      (d.stepF32 center g).1.position_.z ≤ toFloat d.maxPos_.z) := by
  refine ⟨?_, ?_, ?_⟩
  · have h := clampSidesF32_x_bounds (d.integrateF32.rimRuleF32 g).1 (by simpa using hx)
    simpa [Drop.stepF32] using h
  · have h := clampSidesF32_y_bounds (d.integrateF32.rimRuleF32 g).1 (by simpa using hy)
    simpa [Drop.stepF32] using h
  · have h := depthRuleF32_z_bounds (d.integrateF32.rimRuleF32 g).1.clampSidesF32
      (by simpa using hz)
    simpa [Drop.stepF32] using h

theorem settleRuleF32_rdyDelete (d : Drop) :
    d.settleRuleF32.rdyDelete_ =
      (d.rdyDelete_ ||
        decide (d.position_.z = toFloat d.maxPos_.z ∧ d.velocity_.x = 0 ∧ d.velocity_.y = 0)) := by
  unfold Drop.settleRuleF32
  split_ifs with h
  · obtain ⟨h1, h2, h3⟩ := h
    simp [h1, h2, h3]
  · have h4 : ¬ (d.position_.z = toFloat d.maxPos_.z ∧ d.velocity_.x = 0 ∧
        d.velocity_.y = 0) := by
      rintro ⟨h1, h2, h3⟩
      exact h ⟨h2, h3, h1⟩
    simp [h4]

/-- The settled flag is updated in the same way by `Drop::step` in `float`
arithmetic: the flag before the step OR-ed with the exact test on the state after it. -/
theorem stepF32_rdyDelete (center : ℚ) (d : Drop) (g : Rng) :
    (d.stepF32 center g).1.rdyDelete_ =
      (d.rdyDelete_ ||
        decide ((d.stepF32 center g).1.position_.z = toFloat (d.stepF32 center g).1.maxPos_.z ∧
          (d.stepF32 center g).1.velocity_.x = 0 ∧ (d.stepF32 center g).1.velocity_.y = 0)) := by
  have h := settleRuleF32_rdyDelete
    (((d.integrateF32.rimRuleF32 g).1.clampSidesF32).depthRuleF32.centerRuleF32 center)
  simpa [Drop.stepF32] using h

/-! ## Integers as `float` -/

/-- A positive integer of at most 24 bits, scaled down by a power of two, is a `float`. -/
theorem f32_of_dyadic (n : ℤ) (s : ℕ) (h0 : 0 < n) (h1 : n ≤ 16777216) (hs : s ≤ 126) :
    f32 ((n : ℚ) / (2 : ℚ) ^ s) = (n : ℚ) / (2 : ℚ) ^ s := by
  have hp : (0 : ℚ) < (2 : ℚ) ^ s := by positivity
  have hn : (0 : ℚ) < (n : ℚ) := by exact_mod_cast h0
  have hv : (0 : ℚ) < (n : ℚ) / (2 : ℚ) ^ s := div_pos hn hp
  obtain ⟨s1, s2⟩ := binaryExponent_spec _ hv
  generalize hE : binaryExponent ((n : ℚ) / (2 : ℚ) ^ s) = E at s1 s2
  have hvz : (n : ℚ) / (2 : ℚ) ^ s = (n : ℚ) * (2 : ℚ) ^ (-(s : ℤ)) := by
    rw [zpow_neg, zpow_natCast, div_eq_mul_inv]
  have hE0 : -(s : ℤ) ≤ E := by
    have h2 : (1 : ℚ) ≤ n := by exact_mod_cast h0
    have h3 : (2 : ℚ) ^ (-(s : ℤ)) < (2 : ℚ) ^ (E + 1) := by
      have h4 : (2 : ℚ) ^ (-(s : ℤ)) ≤ (n : ℚ) * (2 : ℚ) ^ (-(s : ℤ)) :=
        le_mul_of_one_le_left (by positivity) h2
      rw [← hvz] at h4
      exact lt_of_le_of_lt h4 s2
    have h5 := (zpow_lt_zpow_iff_right₀ (by norm_num : (1 : ℚ) < 2)).mp h3
    omega
  have hE1 : E ≤ 24 - (s : ℤ) := by
    have h2 : (n : ℚ) ≤ (2 : ℚ) ^ (24 : ℤ) := by
      have : (n : ℚ) ≤ 16777216 := by exact_mod_cast h1
      norm_num
      exact this
    have h3 : (n : ℚ) * (2 : ℚ) ^ (-(s : ℤ)) ≤ (2 : ℚ) ^ (24 - (s : ℤ)) := by
      rw [sub_eq_add_neg, zpow_add₀ (by norm_num)]
      exact mul_le_mul_of_nonneg_right h2 (by positivity)
    rw [← hvz] at h3
    exact (zpow_le_zpow_iff_right₀ (by norm_num : (1 : ℚ) < 2)).mp (le_trans s1 h3)
  have hsp := spacing_pos 24 (-126) ((n : ℚ) / (2 : ℚ) ^ s)
  have hsv : spacing 24 (-126) ((n : ℚ) / (2 : ℚ) ^ s) = (2 : ℚ) ^ (E - 23) := by
    unfold spacing
    rw [abs_of_pos hv, hE, max_eq_left (by omega)]
    norm_num
  have key : ∃ k : ℤ, (n : ℚ) / (2 : ℚ) ^ s / spacing 24 (-126) ((n : ℚ) / (2 : ℚ) ^ s) = k := by
    rcases hE1.lt_or_eq with hlt | heq
    · obtain ⟨j, hj⟩ : ∃ j : ℕ, (j : ℤ) = 23 - (s : ℤ) - E :=
        ⟨(23 - (s : ℤ) - E).toNat, Int.toNat_of_nonneg (by omega)⟩
      refine ⟨n * 2 ^ j, ?_⟩
      rw [div_eq_iff hsp.ne', hsv, hvz]
      push_cast
      rw [mul_assoc, ← zpow_natCast (2 : ℚ) j, ← zpow_add₀ (by norm_num), hj]
      congr 2
      ring
    · refine ⟨8388608, ?_⟩
      have hn2 : (n : ℚ) = 16777216 := by
        have h5 : (n : ℚ) ≤ 16777216 := by exact_mod_cast h1
        have h6 : (2 : ℚ) ^ (24 - (s : ℤ)) ≤ (n : ℚ) * (2 : ℚ) ^ (-(s : ℤ)) := by
          rw [← hvz, ← heq]; exact s1
        rw [sub_eq_add_neg, zpow_add₀ (by norm_num)] at h6
        have h7 := le_of_mul_le_mul_right h6 (by positivity)
        norm_num at h7
        linarith
      rw [div_eq_iff hsp.ne', hsv, hvz, heq, hn2]
      rw [show (24 - (s : ℤ) - 23) = 1 + -(s : ℤ) by ring, zpow_add₀ (by norm_num)]
      norm_num
      ring
  obtain ⟨k, hk⟩ := key
  unfold f32
  rw [roundBinary_eq _ _ _ hv.ne', hk, roundHalfEven_intCast, ← hk, div_mul_cancel₀ _ hsp.ne']

/-- An `int` of absolute value at most 2^24 converts to `float` without rounding. -/
theorem toFloat_of_small (n : ℤ) (h : |n| ≤ 16777216) : toFloat n = n := by
  obtain ⟨h1, h2⟩ := abs_le.mp h
  unfold toFloat
  rcases lt_trichotomy 0 n with hn | hn | hn
  · simpa using f32_of_dyadic n 0 hn h2 (by norm_num)
  · rw [← hn]; simpa using f32_zero
  · have h3 := f32_of_dyadic (-n) 0 (by omega) (by omega) (by norm_num)
    simp only [pow_zero, div_one] at h3
    push_cast at h3
    rw [f32_neg] at h3
    exact neg_injective h3

/-! ## A side-wall hit -/

/-- C10 as stated fails on the code: lines 125 and 126 store `float` values, and the
clamps of lines 147-155 store the bound converted to `float`. (1) The drop `rimDrop`
(extent 7, at the rim with velocity (0.5, 0, 0)) crosses the rim in its next step;
with `rand() % 10 = 9` the step ends with vertical velocity 13421773 / 2^26, the
`float` nearest to 0.2 and not 0.2, and with vertical acceleration 12348031 / 2^28,
which is greater than 0.046. (2) The drop `hugeDrop` (extent 2^24 + 1) passes the
bound on x in its next step and is put at x = 2^24, the `float` the bound converts
to, not at the bound. -/
theorem side_wall_hit_stores_floats :
    ((0 ≤ rimDrop.maxPos_.x ∧ 0 ≤ rimDrop.maxPos_.y ∧ 0 ≤ rimDrop.maxPos_.z) ∧
      rimDrop.integrateF32.outsideF32 ∧
      (rimDrop.stepF32 3 (fun _ => 9)).1.velocity_.z = 13421773 / 67108864 ∧
      (rimDrop.stepF32 3 (fun _ => 9)).1.velocity_.z ≠ 0.2 ∧
      (rimDrop.stepF32 3 (fun _ => 9)).1.acceleration_.z = 12348031 / 268435456 ∧
      ¬ (rimDrop.stepF32 3 (fun _ => 9)).1.acceleration_.z ≤ 0.046) ∧
    ((0 ≤ hugeDrop.maxPos_.x ∧ 0 ≤ hugeDrop.maxPos_.y ∧ 0 ≤ hugeDrop.maxPos_.z) ∧
      hugeDrop.integrateF32.outsideF32 ∧
      hugeDrop.integrateF32.position_.x = 16777218 ∧
      (hugeDrop.stepF32 3 (fun _ => 9)).1.position_.x = 16777216 ∧
      (hugeDrop.stepF32 3 (fun _ => 9)).1.position_.x ≠ hugeDrop.maxPos_.x) := by
  decide!

/-- C10, amended (a side-wall hit returns the drop to the front face), for
`Drop::step` in `float` arithmetic. With non-negative bounds, when x or y lies
outside the horizontal span after the `Particle::step()` of a `Drop::step`, then
after that step the depth is exactly 0, x and y are clamped to 0 or to the bound as
converted to `float` (the bound itself when it is at most 2^24), the velocity is
(0, 0, v) with v = 13421773 / 2^26 the `float` nearest to 0.2, both horizontal
accelerations are 0, and the vertical acceleration is the `float` value of
`0.001 + (float)(rand() % 10) / 200.0f`, which lies in [0.001, 12348031 / 2^28]. -/
theorem side_wall_hit_binary32 (center : ℚ) (d : Drop) (g : Rng)
    (hx : 0 ≤ d.maxPos_.x) (hy : 0 ≤ d.maxPos_.y) (hz : 0 ≤ d.maxPos_.z)
    (h : d.integrateF32.outsideF32) :
    (d.stepF32 center g).1.position_.z = 0 ∧
    (d.stepF32 center g).1.position_.x =
      max 0 (min d.integrateF32.position_.x (toFloat d.maxPos_.x)) ∧
    (d.stepF32 center g).1.position_.y =
      max 0 (min d.integrateF32.position_.y (toFloat d.maxPos_.y)) ∧
    (d.maxPos_.x ≤ 16777216 → toFloat d.maxPos_.x = d.maxPos_.x) ∧
    (d.maxPos_.y ≤ 16777216 → toFloat d.maxPos_.y = d.maxPos_.y) ∧
    (d.stepF32 center g).1.velocity_ = ⟨0, 0, 13421773 / 67108864⟩ ∧
    (d.stepF32 center g).1.acceleration_ =
      ⟨0, 0, f32 (f64 (f64 0.001 + f32 (((g 0 % 10 : ℕ) : ℚ) / 200)))⟩ ∧
    0.001 ≤ (d.stepF32 center g).1.acceleration_.z ∧
    (d.stepF32 center g).1.acceleration_.z ≤ 12348031 / 268435456 := by
  obtain ⟨hv, ha, -, -, -⟩ := rimRuleF32_of_outside d.integrateF32 g h
  have hpart : (d.stepF32 center g).1.toParticle =
      (d.integrateF32.rimRuleF32 g).1.clampSidesF32.toParticle := by
    rw [stepF32_of_outside center d g hz h, settleRuleF32_toParticle]
  have hout : (d.integrateF32.rimRuleF32 g).1.outsideF32 := (rimRuleF32_outside_iff _ g).mpr h
  obtain ⟨k1, k2⟩ := rim_constants
  obtain ⟨k3, k4⟩ := k2 (g 0 % 10) (Nat.mod_lt _ (by norm_num))
  refine ⟨?_, ?_, ?_, ?_, ?_, ?_, ?_, ?_, ?_⟩
  · rw [hpart]; exact clampSidesF32_z_of_outside _ hout
  · rw [hpart, clampSidesF32_x_eq_clamp _ (by simpa using hx)]; simp
  · rw [hpart, clampSidesF32_y_eq_clamp _ (by simpa using hy)]; simp
  · intro hs; exact toFloat_of_small _ (abs_le.mpr ⟨by omega, hs⟩)
  · intro hs; exact toFloat_of_small _ (abs_le.mpr ⟨by omega, hs⟩)
  · rw [hpart, clampSidesF32_velocity, hv, k1]
  · rw [hpart, clampSidesF32_acceleration, ha]
  · rw [hpart, clampSidesF32_acceleration, ha]; exact k3
  · rw [hpart, clampSidesF32_acceleration, ha]; exact k4

theorem side_wall_hit_binary32_witness :
    (0 ≤ wildDrop.maxPos_.x ∧ 0 ≤ wildDrop.maxPos_.y ∧ 0 ≤ wildDrop.maxPos_.z ∧
      wildDrop.integrateF32.outsideF32) ∧
    (wildDrop.stepF32 3 (fun _ => 4)).1.position_ = ⟨7, 0, 0⟩ ∧
    (wildDrop.stepF32 3 (fun _ => 4)).1.velocity_ = ⟨0, 0, 13421773 / 67108864⟩ ∧
    (wildDrop.stepF32 3 (fun _ => 4)).1.acceleration_.z ≤ 12348031 / 268435456 :=
  have h := side_wall_hit_binary32 3 wildDrop (fun _ => 4) (by decide) (by decide) (by decide)
    (by decide!)
  ⟨by decide!, by decide!, h.2.2.2.2.2.1, h.2.2.2.2.2.2.2.2⟩

/-! ## The cached horizontal velocity -/

@[simp] theorem force_maxPos (d : Drop) (pos vel accel : Vector3f) :
    (d.force pos vel accel).maxPos_ = d.maxPos_ := rfl

@[simp] theorem force_vxOld (d : Drop) (pos vel accel : Vector3f) :
    (d.force pos vel accel).vxOld_ = d.vxOld_ := rfl

@[simp] theorem force_vyOld (d : Drop) (pos vel accel : Vector3f) :
    (d.force pos vel accel).vyOld_ = d.vyOld_ := rfl

/-- What a step that crosses the rim does to the cache, with a non-negative depth
bound: a cache of (0, 0) is overwritten with the horizontal velocity of that moment,
any other cache is kept. -/
theorem cache_after_crossing (center : ℚ) (d : Drop) (g : Rng) (hz : 0 ≤ d.maxPos_.z)
    (h : d.integrateF32.outsideF32) :
    (d.stepF32 center g).1.vxOld_ =
        (if d.vxOld_ = 0 ∧ d.vyOld_ = 0 then d.integrateF32.velocity_.x else d.vxOld_) ∧
      (d.stepF32 center g).1.vyOld_ =
        (if d.vxOld_ = 0 ∧ d.vyOld_ = 0 then d.integrateF32.velocity_.y else d.vyOld_) := by
  obtain ⟨-, -, h1, h2, -⟩ := rimRuleF32_of_outside d.integrateF32 g h
  rw [stepF32_of_outside center d g hz h]
  simp only [settleRuleF32_vxOld, settleRuleF32_vyOld, clampSidesF32_vxOld, clampSidesF32_vyOld,
    h1, h2, integrateF32_vxOld, integrateF32_vyOld]
  exact ⟨trivial, trivial⟩

/-- C6 as stated fails on the code. (1) `idleDrop` rests in a cube of extent 7. A
harness puts it at x = -1: the step crosses the rim and leaves the cache (0, 0), the
horizontal velocity of that moment. The harness then sets the velocity (-1, 0, 0):
the next step crosses the rim again, and since the cache is still (0, 0) the test of
line 129 passes and the cache becomes (-1, 0). (2) `shallowDrop` has the negative
depth bound -1 and no harness: its first two steps both cross the rim, and the cache
is (10, 0) after the first, (0, 0) after the second. -/
theorem cache_rewritten_after_first_crossing :
    ((idleDrop.force ⟨-1, 3, 0⟩ ⟨0, 0, 0⟩ ⟨0, 0, 0⟩).integrateF32.outsideF32 ∧
      (((idleDrop.force ⟨-1, 3, 0⟩ ⟨0, 0, 0⟩ ⟨0, 0, 0⟩).stepF32 3 (fun _ => 4)).1.force ⟨0, 3, 0⟩
        ⟨-1, 0, 0⟩ ⟨0, 0, 0⟩).integrateF32.outsideF32 ∧
      (((idleDrop.force ⟨-1, 3, 0⟩ ⟨0, 0, 0⟩ ⟨0, 0, 0⟩).stepF32 3 (fun _ => 4)).1.force ⟨0, 3, 0⟩
        ⟨-1, 0, 0⟩ ⟨0, 0, 0⟩).vxOld_ = 0 ∧
      (((idleDrop.force ⟨-1, 3, 0⟩ ⟨0, 0, 0⟩ ⟨0, 0, 0⟩).stepF32 3 (fun _ => 4)).1.force ⟨0, 3, 0⟩
        ⟨-1, 0, 0⟩ ⟨0, 0, 0⟩).vyOld_ = 0 ∧
      ((((idleDrop.force ⟨-1, 3, 0⟩ ⟨0, 0, 0⟩ ⟨0, 0, 0⟩).stepF32 3 (fun _ => 4)).1.force ⟨0, 3, 0⟩
        ⟨-1, 0, 0⟩ ⟨0, 0, 0⟩).stepF32 3 (fun _ => 4)).1.vxOld_ = -1) ∧
    (shallowDrop.integrateF32.outsideF32 ∧
      (shallowDrop.stepF32 3 (fun _ => 4)).1.integrateF32.outsideF32 ∧
      (shallowDrop.stepF32 3 (fun _ => 4)).1.vxOld_ = 10 ∧
      ((shallowDrop.stepF32 3 (fun _ => 4)).1.stepF32 3 (fun _ => 4)).1.vxOld_ = 0) := by
  decide!

/-- C6, amended (cache-once rule), for `Drop::step` in `float` arithmetic. Take any
drop state with a non-negative depth bound, reached by steps or set up through the
setters, and a call of `Drop::step` whose `Particle::step()` puts x or y outside the
horizontal span. (1) If the cache `(vxOld_, vyOld_)` is (0, 0) before the call, the
call stores the horizontal velocity of that moment in it. (2) If the cache is not
(0, 0) before the call, the cache after the call equals the cache before it. (3) So
after a crossing from cache (0, 0) with a non-zero horizontal velocity, a harness may
set position, velocity and acceleration as it likes: a second crossing forced that
way leaves the cached value unchanged. -/
theorem cache_written_only_when_zero (center : ℚ) (d : Drop) (g : Rng)
    (hz : 0 ≤ d.maxPos_.z) (h : d.integrateF32.outsideF32) :
    (d.vxOld_ = 0 ∧ d.vyOld_ = 0 →
      (d.stepF32 center g).1.vxOld_ = d.integrateF32.velocity_.x ∧
      (d.stepF32 center g).1.vyOld_ = d.integrateF32.velocity_.y) ∧
    (¬ (d.vxOld_ = 0 ∧ d.vyOld_ = 0) →
      (d.stepF32 center g).1.vxOld_ = d.vxOld_ ∧ (d.stepF32 center g).1.vyOld_ = d.vyOld_) ∧
    (d.vxOld_ = 0 ∧ d.vyOld_ = 0 →
      ¬ (d.integrateF32.velocity_.x = 0 ∧ d.integrateF32.velocity_.y = 0) →
      ∀ (pos vel accel : Vector3f) (g2 : Rng),
        ((d.stepF32 center g).1.force pos vel accel).integrateF32.outsideF32 →
        (((d.stepF32 center g).1.force pos vel accel).stepF32 center g2).1.vxOld_ =
            (d.stepF32 center g).1.vxOld_ ∧
          (((d.stepF32 center g).1.force pos vel accel).stepF32 center g2).1.vyOld_ =
            (d.stepF32 center g).1.vyOld_) := by
  obtain ⟨e1, e2⟩ := cache_after_crossing center d g hz h
  refine ⟨?_, ?_, ?_⟩
  · intro hc
    rw [e1, e2, if_pos hc, if_pos hc]
    exact ⟨rfl, rfl⟩
  · intro hc
    rw [e1, e2, if_neg hc, if_neg hc]
    exact ⟨rfl, rfl⟩
  · intro hc hv pos vel accel g2 h2
    have hne : ¬ (((d.stepF32 center g).1.force pos vel accel).vxOld_ = 0 ∧
        ((d.stepF32 center g).1.force pos vel accel).vyOld_ = 0) := by
      rw [force_vxOld, force_vyOld, e1, e2, if_pos hc, if_pos hc]
      exact hv
    obtain ⟨f1, f2⟩ := cache_after_crossing center ((d.stepF32 center g).1.force pos vel accel) g2
      (by simpa using hz) h2
    rw [f1, f2, if_neg hne, if_neg hne]
    exact ⟨force_vxOld _ pos vel accel, force_vyOld _ pos vel accel⟩

theorem cache_written_only_when_zero_witness :
    (0 ≤ rimDrop.maxPos_.z ∧ rimDrop.integrateF32.outsideF32 ∧
      rimDrop.vxOld_ = 0 ∧ rimDrop.vyOld_ = 0 ∧ rimDrop.integrateF32.velocity_.x = 0.5 ∧
      forcedDrop.integrateF32.outsideF32) ∧
    ((rimDrop.stepF32 3 (fun _ => 4)).1.vxOld_ = rimDrop.integrateF32.velocity_.x ∧
      (rimDrop.stepF32 3 (fun _ => 4)).1.vyOld_ = rimDrop.integrateF32.velocity_.y) ∧
    ((forcedDrop.stepF32 3 (fun _ => 7)).1.vxOld_ = (rimDrop.stepF32 3 (fun _ => 4)).1.vxOld_ ∧
      (forcedDrop.stepF32 3 (fun _ => 7)).1.vyOld_ = (rimDrop.stepF32 3 (fun _ => 4)).1.vyOld_) :=
  have h := cache_written_only_when_zero 3 rimDrop (fun _ => 4) (by decide) (by decide!)
  ⟨by decide!, h.1 ⟨rfl, rfl⟩,
    h.2.2 ⟨rfl, rfl⟩ (by decide!) ⟨8, 3, 2⟩ ⟨0, 0, 0.25⟩ ⟨0, 0, 0.0078125⟩ (fun _ => 7) (by decide!)⟩

/-! ## From the launch to the far face -/

theorem clampSidesF32_side_ge (d : Drop) (center : ℚ) (hc : 0 < center)
    (hm : center ≤ toFloat d.maxPos_.x) (h : center ≤ d.position_.x) :
    center ≤ d.clampSidesF32.position_.x := by
  rw [clampSidesF32_x]
  split_ifs <;> linarith

theorem clampSidesF32_side_le (d : Drop) (center : ℚ) (hc : 0 < center)
    (hm : center ≤ toFloat d.maxPos_.x) (h : d.position_.x ≤ center) :
    d.clampSidesF32.position_.x ≤ center := by
  rw [clampSidesF32_x]
  split_ifs <;> linarith

theorem clampSidesF32_side_ge_y (d : Drop) (center : ℚ) (hc : 0 < center)
    (hm : center ≤ toFloat d.maxPos_.y) (h : center ≤ d.position_.y) :
    center ≤ d.clampSidesF32.position_.y := by
  rw [clampSidesF32_y]
  split_ifs <;> linarith

theorem clampSidesF32_side_le_y (d : Drop) (center : ℚ) (hc : 0 < center)
    (hm : center ≤ toFloat d.maxPos_.y) (h : d.position_.y ≤ center) :
    d.clampSidesF32.position_.y ≤ center := by
  rw [clampSidesF32_y]
  split_ifs <;> linarith

/-- The side clamps leave x a `float`. -/
theorem clampSidesF32_x_float (d : Drop) (h : f32 d.position_.x = d.position_.x) :
    f32 d.clampSidesF32.position_.x = d.clampSidesF32.position_.x := by
  rw [clampSidesF32_x]
  split_ifs
  · exact toFloat_idem _
  · exact f32_zero
  · exact toFloat_idem _
  · exact h

/-- The side clamps leave y a `float`. -/
theorem clampSidesF32_y_float (d : Drop) (h : f32 d.position_.y = d.position_.y) :
    f32 d.clampSidesF32.position_.y = d.clampSidesF32.position_.y := by
  rw [clampSidesF32_y]
  split_ifs
  · exact toFloat_idem _
  · exact f32_zero
  · exact toFloat_idem _
  · exact h

/-- One step of a drop that has not left the span yet: it either stays in the span or
hits the rim and starts gliding down from depth 0. -/
theorem Drop.FallingF32.fallingStep {center : ℚ} {vx vy : ℚ} {d : Drop} (g : Rng)
    (hc : 0 < center) (hcf : f32 center = center) (hvx : f32 vx = vx) (hvy : f32 vy = vy)
    (hx : center < d.maxPos_.x) (hy : center < d.maxPos_.y)
    (hz : 0 < d.maxPos_.z) (h : d.FallingF32 center vx vy) :
    (d.stepF32 center g).1.FallingF32 center vx vy ∨
      (d.stepF32 center g).1.SlidingF32 center vx vy := by
  obtain ⟨hv, ha, c1, c2, z0, sx1, sx2, sy1, sy2⟩ := h
  have hz1 : 0 < toFloat d.maxPos_.z := toFloat_pos hz
  have hmx : center ≤ toFloat d.maxPos_.x := le_toFloat hcf hx.le
  have hmy : center ≤ toFloat d.maxPos_.y := le_toFloat hcf hy.le
  have ev : d.integrateF32.velocity_ = ⟨vx, vy, 0⟩ := by
    simp [Drop.integrateF32, hv, ha, hvx, hvy, f32_zero]
  have epx : d.integrateF32.position_.x = f32 (d.position_.x + vx) := by
    simp [Drop.integrateF32, hv, ha, hvx]
  have epy : d.integrateF32.position_.y = f32 (d.position_.y + vy) := by
    simp [Drop.integrateF32, hv, ha, hvy]
  have epz : d.integrateF32.position_.z = 0 := by
    simp [Drop.integrateF32, hv, ha, z0, f32_zero]
  have tx1 : 0 ≤ vx → center ≤ d.integrateF32.position_.x := fun h0 => by
    rw [epx, ← hcf]; exact f32_mono (by linarith [sx1 h0])
  have tx2 : vx ≤ 0 → d.integrateF32.position_.x ≤ center := fun h0 => by
    rw [epx, ← hcf]; exact f32_mono (by linarith [sx2 h0])
  have ty1 : 0 ≤ vy → center ≤ d.integrateF32.position_.y := fun h0 => by
    rw [epy, ← hcf]; exact f32_mono (by linarith [sy1 h0])
  have ty2 : vy ≤ 0 → d.integrateF32.position_.y ≤ center := fun h0 => by
    rw [epy, ← hcf]; exact f32_mono (by linarith [sy2 h0])
  by_cases ho : d.integrateF32.outsideF32
  · right
    obtain ⟨rv, ra, r1, r2, -⟩ := rimRuleF32_of_outside d.integrateF32 g ho
    have hout : (d.integrateF32.rimRuleF32 g).1.outsideF32 := (rimRuleF32_outside_iff _ g).mpr ho
    have bx : (0 : ℤ) ≤ d.maxPos_.x := by
      have : (0 : ℚ) < d.maxPos_.x := by linarith
      exact_mod_cast this.le
    have by0 : (0 : ℤ) ≤ d.maxPos_.y := by
      have : (0 : ℚ) < d.maxPos_.y := by linarith
      exact_mod_cast this.le
    rw [stepF32_of_outside center d g hz.le ho]
    refine ⟨by simp [rv], by simp [rv], ?_, by simp [ra], by simp [ra], ?_, ?_, ?_, ?_, ?_,
      ?_, ?_, ?_, ?_, ?_, ?_, ?_⟩
    · simp only [settleRuleF32_toParticle, clampSidesF32_velocity, rv]
      exact f32_nonneg (f64_nonneg (by norm_num))
    · simp only [settleRuleF32_toParticle, clampSidesF32_acceleration, ra]
      exact f32_nonneg (f64_nonneg (add_nonneg (f64_nonneg (by norm_num))
        (f32_nonneg (by positivity))))
    · simp [r1, c1, c2, ev]
    · simp [r2, c1, c2, ev]
    · simp [clampSidesF32_z_of_outside _ hout]
    · simpa [clampSidesF32_z_of_outside _ hout] using hz1
    · have := clampSidesF32_not_outside (d.integrateF32.rimRuleF32 g).1 (by simpa using bx)
        (by simpa using by0)
      simpa [Drop.outsideF32] using this
    · simpa using clampSidesF32_x_float (d.integrateF32.rimRuleF32 g).1
        (by rw [rimRuleF32_position, epx]; exact f32_idem _)
    · simpa using clampSidesF32_y_float (d.integrateF32.rimRuleF32 g).1
        (by rw [rimRuleF32_position, epy]; exact f32_idem _)
    · intro h0
      simpa using clampSidesF32_side_ge (d.integrateF32.rimRuleF32 g).1 center hc
        (by simpa using hmx) (by simpa using tx1 h0)
    · intro h0
      simpa using clampSidesF32_side_le (d.integrateF32.rimRuleF32 g).1 center hc
        (by simpa using hmx) (by simpa using tx2 h0)
    · intro h0
      simpa using clampSidesF32_side_ge_y (d.integrateF32.rimRuleF32 g).1 center hc
        (by simpa using hmy) (by simpa using ty1 h0)
    · intro h0
      simpa using clampSidesF32_side_le_y (d.integrateF32.rimRuleF32 g).1 center hc
        (by simpa using hmy) (by simpa using ty2 h0)
  · left
    have hne : d.integrateF32.position_.z ≠ toFloat d.integrateF32.maxPos_.z := by
      rw [epz]; simp only [integrateF32_maxPos]; exact hz1.ne
    have hd : d.integrateF32.depthRuleF32 = d.integrateF32 :=
      depthRuleF32_of_inside _ (by rw [epz]) (by rw [epz]; simpa using hz1.le)
    rw [stepF32_of_not_outside center d g ho, hd, centerRuleF32_of_not_deep center _ hne,
      settleRuleF32_of_not_deep _ hne]
    exact ⟨ev, ha, c1, c2, epz, tx1, tx2, ty1, ty2⟩

/-- What one step does to a drop that glides down: it keeps gliding short of the far
face, or its depth passes the depth bound and the cached velocity comes back negated,
or its depth lands exactly on the depth bound and it settles with horizontal
velocity 0. -/
theorem Drop.SlidingF32.slidingStep {center : ℚ} {vx vy : ℚ} {d : Drop} (g : Rng)
    (h : d.SlidingF32 center vx vy) :
    ((d.stepF32 center g).1.SlidingF32 center vx vy ∧
        (d.stepF32 center g).1.position_.z ≠ toFloat d.maxPos_.z) ∨
      (toFloat d.maxPos_.z < d.integrateF32.position_.z ∧
        (d.stepF32 center g).1.position_.z = toFloat d.maxPos_.z ∧
        (d.stepF32 center g).1.velocity_ = ⟨-vx, -vy, 0⟩ ∧
        (d.stepF32 center g).1.acceleration_ = ⟨0, 0, 0⟩) ∨
      (d.integrateF32.position_.z = toFloat d.maxPos_.z ∧
        (d.stepF32 center g).1.position_.z = toFloat d.maxPos_.z ∧
        (d.stepF32 center g).1.velocity_.x = 0 ∧ (d.stepF32 center g).1.velocity_.y = 0 ∧
        (d.stepF32 center g).1.rdyDelete_ = true) := by
  obtain ⟨v1, v2, v3, a1, a2, a3, c1, c2, z0, z1, hin, fx, fy, sx1, sx2, sy1, sy2⟩ := h
  have evx : d.integrateF32.velocity_.x = 0 := by
    simp [Drop.integrateF32, v1, a1, f32_zero]
  have evy : d.integrateF32.velocity_.y = 0 := by
    simp [Drop.integrateF32, v2, a2, f32_zero]
  have evz : d.integrateF32.velocity_.z = f32 (d.velocity_.z + d.acceleration_.z) := by
    simp [Drop.integrateF32]
  have epx : d.integrateF32.position_.x = d.position_.x := by
    simp [Drop.integrateF32, v1, a1, f32_zero, fx]
  have epy : d.integrateF32.position_.y = d.position_.y := by
    simp [Drop.integrateF32, v2, a2, f32_zero, fy]
  have epz : d.integrateF32.position_.z =
      f32 (d.position_.z + f32 (d.velocity_.z + d.acceleration_.z)) := by
    simp [Drop.integrateF32]
  have hvz : 0 ≤ d.integrateF32.velocity_.z := by
    rw [evz]; exact f32_nonneg (by linarith)
  have ho : ¬ d.integrateF32.outsideF32 := by
    unfold Drop.outsideF32 at hin ⊢
    rw [epx, epy]
    exact hin
  have hz0 : 0 ≤ d.integrateF32.position_.z := by
    rw [epz]
    rw [evz] at hvz
    exact f32_nonneg (by linarith)
  rw [stepF32_of_not_outside center d g ho]
  rcases lt_trichotomy d.integrateF32.position_.z (toFloat d.maxPos_.z) with hlt | heq | hgt
  · left
    have hne : d.integrateF32.position_.z ≠ toFloat d.integrateF32.maxPos_.z := by
      simpa using hlt.ne
    rw [depthRuleF32_of_inside _ hz0 (by simpa using hlt.le),
      centerRuleF32_of_not_deep center _ hne, settleRuleF32_of_not_deep _ hne]
    refine ⟨⟨evx, evy, hvz, a1, a2, a3, c1, c2, hz0, by simpa using hlt, ho, ?_, ?_, ?_, ?_,
      ?_, ?_⟩, by simpa using hne⟩
    · rw [epx]; exact fx
    · rw [epy]; exact fy
    · rw [epx]; exact sx1
    · rw [epx]; exact sx2
    · rw [epy]; exact sy1
    · rw [epy]; exact sy2
  · right; right
    rw [depthRuleF32_of_inside _ hz0 (by simpa using heq.le),
      centerRuleF32_of_still center _ evx evy]
    refine ⟨heq, by simpa using heq, by simpa using evx, by simpa using evy, ?_⟩
    unfold Drop.settleRuleF32
    rw [if_pos ⟨evx, evy, by simpa using heq⟩]
  · right; left
    obtain ⟨dz, dv, da⟩ := depthRuleF32_of_deep d.integrateF32 hz0 (by simpa using hgt)
    have hcen : d.integrateF32.depthRuleF32.centerRuleF32 center = d.integrateF32.depthRuleF32 := by
      apply centerRuleF32_of_inward
      · rw [dv, depthRuleF32_x, epx]
        simp only [integrateF32_vxOld, c1, mul_neg, mul_one]
        rintro (h1 | h1)
        · linarith [sx2 (by linarith [h1.1]), h1.2]
        · linarith [sx1 (by linarith [h1.1]), h1.2]
      · rw [dv, depthRuleF32_y, epy]
        simp only [integrateF32_vyOld, c2, mul_neg, mul_one]
        rintro (h1 | h1)
        · linarith [sy2 (by linarith [h1.1]), h1.2]
        · linarith [sy1 (by linarith [h1.1]), h1.2]
    rw [hcen]
    refine ⟨hgt, ?_, ?_, ?_⟩
    · simpa using dz
    · simp [dv, c1, c2]
    · simpa using da

theorem stepNF32_succ (center : ℚ) (d : Drop) (g : Rng) (n : ℕ) :
    Drop.stepNF32 center (n + 1) d g =
      Drop.stepF32 center (Drop.stepNF32 center n d g).1 (Drop.stepNF32 center n d g).2 := rfl

/-- The launch state of the drop of the far-face scenario. -/
theorem falling_new (center : ℚ) (maxPos : Vector3i) (vx vy : ℚ) (col : Color) :
    (Drop.new maxPos ⟨center, center, 0⟩ ⟨vx, vy, 0⟩ ⟨0, 0, 0⟩ col).FallingF32 center vx vy := by
  simp [Drop.FallingF32, Drop.new]

/-- Until the depth first equals the depth bound, the launched drop is falling or
sliding. -/
theorem falling_or_sliding (center : ℚ) (d : Drop) (vx vy : ℚ) (g : Rng)
    (hc : 0 < center) (hcf : f32 center = center) (hvx : f32 vx = vx) (hvy : f32 vy = vy)
    (hx : center < d.maxPos_.x) (hy : center < d.maxPos_.y)
    (hz : 0 < d.maxPos_.z) (h0 : d.FallingF32 center vx vy) (n : ℕ)
    (hfirst : ∀ k, k ≤ n → (Drop.stepNF32 center k d g).1.position_.z ≠ toFloat d.maxPos_.z) :
    (Drop.stepNF32 center n d g).1.FallingF32 center vx vy ∨
      (Drop.stepNF32 center n d g).1.SlidingF32 center vx vy := by
  induction n with
  | zero => exact Or.inl h0
  | succ n ih =>
    have hn := hfirst (n + 1) (le_refl _)
    rw [stepNF32_succ] at hn ⊢
    rcases ih (fun k hk => hfirst k (Nat.le_succ_of_le hk)) with hf | hs
    · exact hf.fallingStep (Drop.stepNF32 center n d g).2 hc hcf hvx hvy (by simpa using hx)
        (by simpa using hy) (by simpa using hz)
    · rcases hs.slidingStep (Drop.stepNF32 center n d g).2 with h1 | h1 | h1
      · exact Or.inr h1.1
      · have e := h1.2.1
        rw [stepNF32_maxPos] at e
        exact absurd e hn
      · have e := h1.2.1
        rw [stepNF32_maxPos] at e
        exact absurd e hn

/-- C8, amended (reversal at the far face), for `Drop::step` in `float` arithmetic. A
drop is launched at (center, center, 0) with velocity (vx, vy, 0) and zero
acceleration in a cube whose x and y bounds exceed `center > 0` and whose depth bound
is positive; `center`, `vx` and `vy` are `float` values. Let step `n + 1` be the first
`Drop::step` after which the depth equals the depth bound. Then the depth computed by
`Particle::step()` in that step is at least the depth bound; if it is strictly greater
(the test of line 162), the velocity after the step is exactly (-vx, -vy, 0) and the
acceleration is (0, 0, 0); if it is exactly the depth bound, the horizontal velocity
after the step is (0, 0) and the drop is settled. -/
theorem reversal_at_far_face_binary32 (center : ℚ) (maxPos : Vector3i) (vx vy : ℚ)
    (col : Color) (g : Rng) (n : ℕ)
    (hc : 0 < center) (hcf : f32 center = center) (hvx : f32 vx = vx) (hvy : f32 vy = vy)
    (hx : center < maxPos.x) (hy : center < maxPos.y) (hz : 0 < maxPos.z)
    (hfirst : ∀ k, k ≤ n →
      (Drop.stepNF32 center k (Drop.new maxPos ⟨center, center, 0⟩ ⟨vx, vy, 0⟩ ⟨0, 0, 0⟩ col)
        g).1.position_.z ≠ toFloat maxPos.z)
    (hreach :
      (Drop.stepNF32 center (n + 1) (Drop.new maxPos ⟨center, center, 0⟩ ⟨vx, vy, 0⟩ ⟨0, 0, 0⟩ col)
        g).1.position_.z = toFloat maxPos.z) :
    toFloat maxPos.z ≤
      (Drop.stepNF32 center n (Drop.new maxPos ⟨center, center, 0⟩ ⟨vx, vy, 0⟩ ⟨0, 0, 0⟩ col)
        g).1.integrateF32.position_.z ∧
    (toFloat maxPos.z <
      (Drop.stepNF32 center n (Drop.new maxPos ⟨center, center, 0⟩ ⟨vx, vy, 0⟩ ⟨0, 0, 0⟩ col)
        g).1.integrateF32.position_.z →
      (Drop.stepNF32 center (n + 1) (Drop.new maxPos ⟨center, center, 0⟩ ⟨vx, vy, 0⟩ ⟨0, 0, 0⟩ col)
        g).1.velocity_ = ⟨-vx, -vy, 0⟩ ∧
      (Drop.stepNF32 center (n + 1) (Drop.new maxPos ⟨center, center, 0⟩ ⟨vx, vy, 0⟩ ⟨0, 0, 0⟩ col)
        g).1.acceleration_ = ⟨0, 0, 0⟩) ∧
    ((Drop.stepNF32 center n (Drop.new maxPos ⟨center, center, 0⟩ ⟨vx, vy, 0⟩ ⟨0, 0, 0⟩ col)
        g).1.integrateF32.position_.z = toFloat maxPos.z →
      (Drop.stepNF32 center (n + 1) (Drop.new maxPos ⟨center, center, 0⟩ ⟨vx, vy, 0⟩ ⟨0, 0, 0⟩ col)
        g).1.velocity_.x = 0 ∧
      (Drop.stepNF32 center (n + 1) (Drop.new maxPos ⟨center, center, 0⟩ ⟨vx, vy, 0⟩ ⟨0, 0, 0⟩ col)
        g).1.velocity_.y = 0 ∧
      (Drop.stepNF32 center (n + 1) (Drop.new maxPos ⟨center, center, 0⟩ ⟨vx, vy, 0⟩ ⟨0, 0, 0⟩ col)
        g).1.rdyDelete_ = true) := by
  generalize hd : Drop.new maxPos ⟨center, center, 0⟩ ⟨vx, vy, 0⟩ ⟨0, 0, 0⟩ col = d at *
  have hm : d.maxPos_ = maxPos := by rw [← hd]; rfl
  have h0 : d.FallingF32 center vx vy := by rw [← hd]; exact falling_new center maxPos vx vy col
  rw [stepNF32_succ] at hreach ⊢
  have hzq : 0 < toFloat maxPos.z := toFloat_pos hz
  rcases falling_or_sliding center d vx vy g hc hcf hvx hvy (by rw [hm]; exact hx)
      (by rw [hm]; exact hy) (by rw [hm]; exact hz) h0 n (by rw [hm]; exact hfirst) with hf | hs
  · exfalso
    rcases hf.fallingStep (Drop.stepNF32 center n d g).2 hc hcf hvx hvy (by simpa [hm] using hx)
        (by simpa [hm] using hy) (by simpa [hm] using hz) with h1 | h1
    · have e := h1.2.2.2.2.1
      rw [e] at hreach
      exact hzq.ne hreach
    · have e := h1.2.2.2.2.2.2.2.2.2.1
      rw [hreach, stepF32_maxPos, stepNF32_maxPos, hm] at e
      exact lt_irrefl _ e
  · rcases hs.slidingStep (Drop.stepNF32 center n d g).2 with h1 | h1 | h1
    · have e := h1.2
      rw [stepNF32_maxPos, hm] at e
      exact absurd hreach e
    · obtain ⟨e1, -, e3, e4⟩ := h1
      rw [stepNF32_maxPos, hm] at e1
      exact ⟨e1.le, fun _ => ⟨e3, e4⟩, fun h => absurd h e1.ne'⟩
    · obtain ⟨e1, -, e3, e4, e5⟩ := h1
      rw [stepNF32_maxPos, hm] at e1
      exact ⟨e1.ge, fun h => absurd e1 h.ne', fun _ => ⟨e3, e4, e5⟩⟩

theorem reversal_at_far_face_binary32_witness :
    ((0 : ℚ) < 3 ∧ f32 3 = 3 ∧ f32 0.5 = 0.5 ∧ f32 0 = 0 ∧
      (3 : ℚ) < (⟨7, 7, 7⟩ : Vector3i).x ∧ (3 : ℚ) < (⟨7, 7, 7⟩ : Vector3i).y ∧
      0 < (⟨7, 7, 7⟩ : Vector3i).z) ∧
    (∀ k, k ≤ 22 →
      (Drop.stepNF32 3 k (Drop.new ⟨7, 7, 7⟩ ⟨3, 3, 0⟩ ⟨0.5, 0, 0⟩ ⟨0, 0, 0⟩ ⟨0, 255, 150⟩)
        (fun _ => 9)).1.position_.z ≠ toFloat (⟨7, 7, 7⟩ : Vector3i).z) ∧
    (Drop.stepNF32 3 (22 + 1) (Drop.new ⟨7, 7, 7⟩ ⟨3, 3, 0⟩ ⟨0.5, 0, 0⟩ ⟨0, 0, 0⟩ ⟨0, 255, 150⟩)
        (fun _ => 9)).1.position_.z = toFloat (⟨7, 7, 7⟩ : Vector3i).z ∧
    (Drop.stepNF32 3 (22 + 1) (Drop.new ⟨7, 7, 7⟩ ⟨3, 3, 0⟩ ⟨0.5, 0, 0⟩ ⟨0, 0, 0⟩ ⟨0, 255, 150⟩)
        (fun _ => 9)).1.velocity_ = ⟨-0.5, -0, 0⟩ ∧
    (Drop.stepNF32 3 (22 + 1) (Drop.new ⟨7, 7, 7⟩ ⟨3, 3, 0⟩ ⟨0.5, 0, 0⟩ ⟨0, 0, 0⟩ ⟨0, 255, 150⟩)
        (fun _ => 9)).1.acceleration_ = ⟨0, 0, 0⟩ :=
  ⟨by decide!, by decide!, by decide!,
    (reversal_at_far_face_binary32 3 ⟨7, 7, 7⟩ 0.5 0 ⟨0, 255, 150⟩ (fun _ => 9) 22 (by decide!)
      (by decide!) (by decide!) (by decide!) (by decide!) (by decide!) (by decide) (by decide!)
      (by decide!)).2.1 (by decide!)⟩

/-! ## A glide that lands exactly on the far face -/

theorem stepF32_rng_const (center : ℚ) (d : Drop) (a : ℕ) :
    (d.stepF32 center (fun _ => a)).2 = fun _ => a := by
  simp only [Drop.stepF32]
  by_cases h : d.integrateF32.outsideF32
  · rw [(rimRuleF32_of_outside _ _ h).2.2.2.2]
    rfl
  · rw [rimRuleF32_of_not_outside _ _ h]

theorem stepNF32_rng_const (center : ℚ) (d : Drop) (a : ℕ) (n : ℕ) :
    (Drop.stepNF32 center n d (fun _ => a)).2 = fun _ => a := by
  induction n with
  | zero => rfl
  | succ n ih => rw [stepNF32_succ, ih]; exact stepF32_rng_const center _ a

theorem stepNF32_add (center : ℚ) (d : Drop) (g : Rng) (m k : ℕ) :
    Drop.stepNF32 center (m + k) d g =
      Drop.stepNF32 center k (Drop.stepNF32 center m d g).1 (Drop.stepNF32 center m d g).2 := by
  induction k with
  | zero => rfl
  | succ k ih =>
    show Drop.stepNF32 center (m + k + 1) d g = _
    rw [stepNF32_succ, ih, stepNF32_succ]

/-- Runs with a constant `rand()` compose: the generator is the same after any number
of steps. -/
theorem stepNF32_add_const (center : ℚ) (d : Drop) (a : ℕ) (m k : ℕ) :
    (Drop.stepNF32 center (m + k) d (fun _ => a)).1 =
      (Drop.stepNF32 center k (Drop.stepNF32 center m d (fun _ => a)).1 (fun _ => a)).1 := by
  rw [stepNF32_add, stepNF32_rng_const]

theorem landing_floats :
    f32 (1 / 2) = 1 / 2 ∧ f32 413 = 413 ∧ toFloat 826 = 826 := by
  decide!

theorem landing_half_step (k : ℕ) (hk : k < 826) :
    f32 (413 + (k : ℚ) / 2 + 1 / 2) = 413 + ((k + 1 : ℕ) : ℚ) / 2 := by
  have h := f32_of_dyadic (827 + (k : ℤ)) 1 (by omega) (by omega) (by norm_num)
  have e1 : (413 : ℚ) + (k : ℚ) / 2 + 1 / 2 = ((827 + (k : ℤ) : ℤ) : ℚ) / (2 : ℚ) ^ 1 := by
    push_cast; ring
  have e2 : (413 : ℚ) + ((k + 1 : ℕ) : ℚ) / 2 = ((827 + (k : ℤ) : ℤ) : ℚ) / (2 : ℚ) ^ 1 := by
    push_cast; ring
  rw [e1, e2]
  exact h

theorem landingFall_step (g : Rng) (k : ℕ) (hk : k < 826) :
    (landingFall k).stepF32 413 g = (landingFall (k + 1), g) := by
  obtain ⟨f1, f2, f3⟩ := landing_floats
  have hi : (landingFall k).integrateF32 = landingFall (k + 1) := by
    simp only [Drop.integrateF32, landingFall, Drop.new, add_zero, f32_zero, f1, f2,
      landing_half_step k hk]
  have hk1 : ((k + 1 : ℕ) : ℚ) ≤ 826 := by exact_mod_cast hk
  have ho : ¬ (landingFall k).integrateF32.outsideF32 := by
    rw [hi]
    unfold Drop.outsideF32
    simp only [landingFall, Drop.new, f3]
    push_neg
    refine ⟨?_, by norm_num, ?_, by norm_num⟩
    · positivity
    · linarith
  have hz : (landingFall (k + 1)).position_.z ≠ toFloat (landingFall (k + 1)).maxPos_.z := by
    simp only [landingFall, Drop.new, f3]
    norm_num
  rw [stepF32_of_not_outside 413 _ g ho, hi,
    depthRuleF32_of_inside _ (by simp [landingFall, Drop.new])
      (by simp only [landingFall, Drop.new, f3]; norm_num),
    centerRuleF32_of_not_deep 413 _ hz, settleRuleF32_of_not_deep _ hz]

theorem landingFall_run (g : Rng) (k : ℕ) (hk : k ≤ 826) :
    Drop.stepNF32 413 k landingDrop g = (landingFall k, g) := by
  induction k with
  | zero =>
    show (landingDrop, g) = (landingFall 0, g)
    have : landingDrop = landingFall 0 := by decide!
    rw [this]
  | succ k ih =>
    rw [stepNF32_succ, ih (by omega)]
    exact landingFall_step g k (by omega)

theorem landing_glide_1 :
    (∀ j, j < 45 →
      (Drop.stepNF32 413 j (landingFall 826) (fun _ => 6)).1.position_.z ≠ toFloat 826) ∧
    (Drop.stepNF32 413 45 (landingFall 826) (fun _ => 6)).1 =
      landingSlide (10352067 / 262144) (13119787 / 8388608) := by
  decide!

theorem landing_glide_2 :
    (∀ j, j < 45 →
      (Drop.stepNF32 413 j (landingSlide (10352067 / 262144) (13119787 / 8388608))
        (fun _ => 6)).1.position_.z ≠ toFloat 826) ∧
    (Drop.stepNF32 413 45 (landingSlide (10352067 / 262144) (13119787 / 8388608))
        (fun _ => 6)).1 = landingSlide (4651581 / 32768) (1551367 / 524288) := by
  decide!

theorem landing_glide_3 :
    (∀ j, j < 45 →
      (Drop.stepNF32 413 j (landingSlide (4651581 / 32768) (1551367 / 524288))
        (fun _ => 6)).1.position_.z ≠ toFloat 826) ∧
    (Drop.stepNF32 413 45 (landingSlide (4651581 / 32768) (1551367 / 524288))
        (fun _ => 6)).1 = landingSlide (10066159 / 32768) (9130991 / 2097152) := by
  decide!

theorem landing_glide_4 :
    (∀ j, j < 45 →
      (Drop.stepNF32 413 j (landingSlide (10066159 / 32768) (9130991 / 2097152))
        (fun _ => 6)).1.position_.z ≠ toFloat 826) ∧
    (Drop.stepNF32 413 45 (landingSlide (10066159 / 32768) (9130991 / 2097152))
        (fun _ => 6)).1 = landingSlide (8768877 / 16384) (12056531 / 2097152) := by
  decide!

theorem landing_glide_5 :
    (∀ j, j < 45 →
      (Drop.stepNF32 413 j (landingSlide (8768877 / 16384) (12056531 / 2097152))
        (fun _ => 6)).1.position_.z ≠ toFloat 826) ∧
    (Drop.stepNF32 413 44 (landingSlide (8768877 / 16384) (12056531 / 2097152))
        (fun _ => 6)).1.integrateF32.position_.z = toFloat 826 ∧
    (Drop.stepNF32 413 45 (landingSlide (8768877 / 16384) (12056531 / 2097152))
        (fun _ => 6)).1.position_.z = toFloat 826 ∧
    (Drop.stepNF32 413 45 (landingSlide (8768877 / 16384) (12056531 / 2097152))
        (fun _ => 6)).1.velocity_ = ⟨0, 0, 14982071 / 2097152⟩ ∧
    (Drop.stepNF32 413 45 (landingSlide (8768877 / 16384) (12056531 / 2097152))
        (fun _ => 6)).1.rdyDelete_ = true := by
  decide!

/-- The run of `landingDrop` with rim draw 6, cut at the steps 826, 871, 916, 961 and
1006. -/
theorem landing_run :
    (Drop.stepNF32 413 826 landingDrop (fun _ => 6)).1 = landingFall 826 ∧
    (Drop.stepNF32 413 871 landingDrop (fun _ => 6)).1 =
      landingSlide (10352067 / 262144) (13119787 / 8388608) ∧
    (Drop.stepNF32 413 916 landingDrop (fun _ => 6)).1 =
      landingSlide (4651581 / 32768) (1551367 / 524288) ∧
    (Drop.stepNF32 413 961 landingDrop (fun _ => 6)).1 =
      landingSlide (10066159 / 32768) (9130991 / 2097152) ∧
    (Drop.stepNF32 413 1006 landingDrop (fun _ => 6)).1 =
      landingSlide (8768877 / 16384) (12056531 / 2097152) := by
  have e0 : (Drop.stepNF32 413 826 landingDrop (fun _ => 6)).1 = landingFall 826 := by
    rw [landingFall_run _ 826 (le_refl _)]
  have e1 : (Drop.stepNF32 413 871 landingDrop (fun _ => 6)).1 =
      landingSlide (10352067 / 262144) (13119787 / 8388608) := by
    rw [show 871 = 826 + 45 from rfl, stepNF32_add_const, e0]; exact landing_glide_1.2
  have e2 : (Drop.stepNF32 413 916 landingDrop (fun _ => 6)).1 =
      landingSlide (4651581 / 32768) (1551367 / 524288) := by
    rw [show 916 = 871 + 45 from rfl, stepNF32_add_const, e1]; exact landing_glide_2.2
  have e3 : (Drop.stepNF32 413 961 landingDrop (fun _ => 6)).1 =
      landingSlide (10066159 / 32768) (9130991 / 2097152) := by
    rw [show 961 = 916 + 45 from rfl, stepNF32_add_const, e2]; exact landing_glide_3.2
  have e4 : (Drop.stepNF32 413 1006 landingDrop (fun _ => 6)).1 =
      landingSlide (8768877 / 16384) (12056531 / 2097152) := by
    rw [show 1006 = 961 + 45 from rfl, stepNF32_add_const, e3]; exact landing_glide_4.2
  exact ⟨e0, e1, e2, e3, e4⟩

/-- C8 as stated fails on the code, in `float` arithmetic. In a cube of extent 826
with center 413, the drop launched with velocity (0.5, 0, 0) leaves the span in its
827th step; with `rand() % 10 = 6` it then glides down and the depth computed in its
1051st step is exactly 826. That is the first step after which the depth equals
`maxPos_.z`; the test `>` of line 162 fails in it, so the horizontal velocity after
the step is (0, 0), not (-0.5, 0), and the drop is settled. -/
theorem exact_landing_skips_reversal :
    ((0 : ℚ) < 413 ∧ (413 : ℚ) < landingDrop.maxPos_.x ∧ (413 : ℚ) < landingDrop.maxPos_.y ∧
      (413 : ℚ) < landingDrop.maxPos_.z) ∧
    (landingDrop.position_ = ⟨413, 413, 0⟩ ∧ landingDrop.velocity_ = ⟨0.5, 0, 0⟩ ∧
      landingDrop.acceleration_ = ⟨0, 0, 0⟩) ∧
    toFloat landingDrop.maxPos_.z = 826 ∧
    (∀ k, k < 1051 →
      (Drop.stepNF32 413 k landingDrop (fun _ => 6)).1.position_.z ≠
        toFloat landingDrop.maxPos_.z) ∧
    (Drop.stepNF32 413 1050 landingDrop (fun _ => 6)).1.integrateF32.position_.z =
      toFloat landingDrop.maxPos_.z ∧
    (Drop.stepNF32 413 1051 landingDrop (fun _ => 6)).1.position_.z =
      toFloat landingDrop.maxPos_.z ∧
    (Drop.stepNF32 413 1051 landingDrop (fun _ => 6)).1.velocity_ = ⟨0, 0, 14982071 / 2097152⟩ ∧
    (Drop.stepNF32 413 1051 landingDrop (fun _ => 6)).1.velocity_.x ≠ -0.5 ∧
    (Drop.stepNF32 413 1051 landingDrop (fun _ => 6)).1.rdyDelete_ = true := by
  obtain ⟨e0, e1, e2, e3, e4⟩ := landing_run
  obtain ⟨a1, -⟩ := landing_glide_1
  obtain ⟨a2, -⟩ := landing_glide_2
  obtain ⟨a3, -⟩ := landing_glide_3
  obtain ⟨a4, -⟩ := landing_glide_4
  obtain ⟨a5, b1, b2, b3, b4⟩ := landing_glide_5
  have hm : toFloat landingDrop.maxPos_.z = toFloat 826 := rfl
  have c1 : (Drop.stepNF32 413 1050 landingDrop (fun _ => 6)).1 =
      (Drop.stepNF32 413 44 (landingSlide (8768877 / 16384) (12056531 / 2097152))
        (fun _ => 6)).1 := by
    rw [show 1050 = 1006 + 44 from rfl, stepNF32_add_const, e4]
  have c2 : (Drop.stepNF32 413 1051 landingDrop (fun _ => 6)).1 =
      (Drop.stepNF32 413 45 (landingSlide (8768877 / 16384) (12056531 / 2097152))
        (fun _ => 6)).1 := by
    rw [show 1051 = 1006 + 45 from rfl, stepNF32_add_const, e4]
  refine ⟨by decide!, by decide!, landing_floats.2.2, ?_, ?_, ?_, ?_, ?_, ?_⟩
  · intro k hk
    rw [hm]
    rcases Nat.lt_or_ge k 826 with h | h
    · rw [landingFall_run _ k h.le, landing_floats.2.2]
      simp only [landingFall, Drop.new]
      norm_num
    rcases Nat.lt_or_ge k 871 with h1 | h1
    · obtain ⟨j, rfl⟩ : ∃ j, k = 826 + j := ⟨k - 826, by omega⟩
      rw [stepNF32_add_const, e0]
      exact a1 j (by omega)
    rcases Nat.lt_or_ge k 916 with h2 | h2
    · obtain ⟨j, rfl⟩ : ∃ j, k = 871 + j := ⟨k - 871, by omega⟩
      rw [stepNF32_add_const, e1]
      exact a2 j (by omega)
    rcases Nat.lt_or_ge k 961 with h3 | h3
    · obtain ⟨j, rfl⟩ : ∃ j, k = 916 + j := ⟨k - 916, by omega⟩
      rw [stepNF32_add_const, e2]
      exact a3 j (by omega)
    rcases Nat.lt_or_ge k 1006 with h4 | h4
    · obtain ⟨j, rfl⟩ : ∃ j, k = 961 + j := ⟨k - 961, by omega⟩
      rw [stepNF32_add_const, e3]
      exact a4 j (by omega)
    · obtain ⟨j, rfl⟩ : ∃ j, k = 1006 + j := ⟨k - 1006, by omega⟩
      rw [stepNF32_add_const, e4]
      exact a5 j (by omega)
  · rw [c1, hm]; exact b1
  · rw [c2, hm]; exact b2
  · rw [c2]; exact b3
  · rw [c2, b3]; norm_num
  · rw [c2]; exact b4

/-! ## One launch under exact and under binary32 arithmetic -/

theorem f32_absorbs_quarter_turn :
    f32 (3 + 16166993 / 18014398509481984) = 3 ∧
      f32 (3 - 16166993 / 18014398509481984) = 3 ∧
      f32 (32 + 16166993 / 18014398509481984) = 32 ∧
      f32 (32 - 16166993 / 18014398509481984) = 32 ∧
      f32 (f64 0.2) = 13421773 / 67108864 := by
  decide!

/-- A drop that one binary32 step maps to itself, without a rim hit, stays as it is. -/
theorem stepNF32_of_fixed (center : ℚ) (d : Drop) (h : ¬ d.integrateF32.outsideF32)
    (hfix : (d.integrateF32.depthRuleF32.centerRuleF32 center).settleRuleF32 = d) (g : Rng)
    (k : ℕ) : Drop.stepNF32 center k d g = (d, g) := by
  induction k with
  | zero => rfl
  | succ k ih =>
    rw [stepNF32_succ, ih, stepF32_of_not_outside center d g h, hfix]

/-- With exact arithmetic the drop launched for `rand() % 360 = 90` settles: when its
rim hit draws `rand() % 10 = 0`, it is settled after 52 steps and not before. -/
theorem quarter_turn_settles_exact :
    ∀ n, n < 53 →
      (Drop.stepN 3 n quarterTurn (fun _ => 0)).1.rdyDelete_ = decide (52 ≤ n) := by
  decide!

/-- C7 (termination of a drop) fails on the code as it runs, in `float` arithmetic.
The drop the spawn code creates for `rand() % 360 = 90`, stepped with every `float`
sum rounded to binary32, is never settled: its x velocity of about 8.97e-10 is
absorbed when added to the x coordinate 3, so x never passes the centre, the stop
rule of lines 171-174 never clears the x velocity, and the settle test of line 179
never holds. After 53 steps the drop rests at the far face, still with a non-zero
x velocity, and every further step leaves it as it is. -/
theorem quarter_turn_never_settles_binary32 :
    ∀ n, (Drop.stepNF32 3 n quarterTurn (fun _ => 0)).1.rdyDelete_ = false := by
  have key :
      (∀ n, n < 53 → (Drop.stepNF32 3 n quarterTurn (fun _ => 0)).1.rdyDelete_ = false) ∧
      (Drop.stepNF32 3 53 quarterTurn (fun _ => 0)).1.rdyDelete_ = false ∧
      ¬ (Drop.stepNF32 3 53 quarterTurn (fun _ => 0)).1.integrateF32.outsideF32 ∧
      (((Drop.stepNF32 3 53 quarterTurn
        (fun _ => 0)).1.integrateF32.depthRuleF32.centerRuleF32 3).settleRuleF32 =
          (Drop.stepNF32 3 53 quarterTurn (fun _ => 0)).1) := by
    decide!
  intro n
  obtain ⟨h0, h1, h2, h3⟩ := key
  rcases Nat.lt_or_ge n 53 with hn | hn
  · exact h0 n hn
  · obtain ⟨k, rfl⟩ : ∃ k, n = 53 + k := ⟨n - 53, by omega⟩
    have e1 := stepNF32_add 3 quarterTurn (fun _ => 0) 53 k
    have e2 := stepNF32_of_fixed 3 (Drop.stepNF32 3 53 quarterTurn (fun _ => 0)).1 h2 h3
      (Drop.stepNF32 3 53 quarterTurn (fun _ => 0)).2 k
    have e3 := congrArg (fun p : Drop × Rng => p.1.rdyDelete_) (e1.trans e2)
    exact e3.trans h1

end PixelFlow
